import Mathlib

/-!
Shallow embedding of the grid path-finding engine of
`src/game/systems/pathfinding.cpp` (class `Game::Systems::Pathfinding`).

Translation conventions:
* C++ `int` values become `Int`; `std::uint32_t` becomes `Nat` with explicit
  reduction modulo `2 ^ 32`; `std::size_t` indices become `Nat`.
* The member fields of the C++ object become the fields of the `Pathfinding`
  structure, and every member function becomes a state-passing function.
* `std::vector<std::vector<std::uint8_t>> m_obstacles` becomes
  `List (List Bool)` (`true` = blocked, matching the non-zero flag).
* The generation-stamped scratch vectors become functions `Nat → _`; their
  common size, fixed by `ensureWorkingBuffers` at `width * height` and never
  changed afterwards, appears in the bounds guards as `totalCells`.
* `float` world coordinates of building footprints become `ℚ`, with
  `std::round` modelled as round-half-away-from-zero on `ℚ`.
* The mutexes, the atomics and the worker thread serialize every search; the
  embedding is the sequential semantics under that serialization.
-/

namespace StdIron

/-- Grid coordinate, `struct Point` of the engine (C++ `int` members). -/
structure Point where
  x : Int
  y : Int
deriving DecidableEq, Repr, Inhabited

/-- Open-list entry `(cellIndex, fCost, gCost)`, `struct QueueNode`. -/
structure QueueNode where
  index : Int
  fCost : Int
  gCost : Int
deriving DecidableEq, Repr, Inhabited

/-- Queued request `(request_id, start, end)`, `struct PathRequest`
(`std::uint64_t` id modelled as `Nat`). -/
structure PathRequest where
  requestId : Nat
  start : Point
  stop : Point
deriving DecidableEq, Repr, Inhabited

/-- Completed result `(request_id, path)`, `struct PathResult`. -/
structure PathResult where
  requestId : Nat
  path : List Point
deriving DecidableEq, Repr, Inhabited

/-- Modelled from the spec: the terrain walkability source
(`Game::Map::TerrainService` with its `TerrainHeightMap`, which lives outside
`src/`). It has its own bounds `width × height` (the height map dimensions,
C++ `int`) and reports walkability of a cell within those bounds. -/
structure TerrainSource where
  width : Int
  height : Int
  walkable : Int → Int → Bool

/-- Modelled from the spec: the building footprint registry
(`BuildingCollisionRegistry`, outside `src/`). Each registered building
contributes the list of world-space cells returned by
`getOccupiedGridCells` (float coordinates, modelled as `ℚ`). -/
abbrev BuildingCells := List (List (ℚ × ℚ))

/-- `std::numeric_limits<int>::max()`, the sentinel "infinite" g-cost. -/
def intMax : Int := 2147483647

/-- `2 ^ 32`, the modulus of the `std::uint32_t` generation counter. -/
def uint32Mod : Nat := 4294967296

/-- `std::round` on a world coordinate: round half away from zero,
the semantics of `std::round` on the (exactly represented) inputs. -/
def cround (q : ℚ) : Int :=
  if 0 ≤ q then ⌊q + 1 / 2⌋ else ⌈q - 1 / 2⌉

/-- The engine state: the member fields of class `Pathfinding`. -/
structure Pathfinding where
  width : Nat
  height : Nat
  obstacles : List (List Bool)
  gridOffsetX : ℚ
  gridOffsetZ : ℚ
  obstaclesDirty : Bool
  closedGen : List Nat
  gCostGen : List Nat
  gCostVal : List Int
  parentGen : List Nat
  parentVal : List Int
  generationCounter : Nat
  openHeap : List QueueNode
  requestQueue : List PathRequest
  resultQueue : List PathResult
deriving DecidableEq, Repr

namespace Pathfinding

/-- Size of the scratch buffers: `ensureWorkingBuffers` sizes every scratch
vector to `width * height` and the grid is never resized. -/
def totalCells (pf : Pathfinding) : Nat := pf.width * pf.height

/-- The constructor `Pathfinding(int width, int height)`: all cells clear,
dirty flag set, scratch buffers initialized by `ensureWorkingBuffers`
(generations 0, g-costs `INT_MAX`, parents `-1`). -/
def init (width height : Nat) : Pathfinding where
  width := width
  height := height
  obstacles := List.replicate height (List.replicate width false)
  gridOffsetX := 0
  gridOffsetZ := 0
  obstaclesDirty := true
  closedGen := List.replicate (width * height) 0
  gCostGen := List.replicate (width * height) 0
  gCostVal := List.replicate (width * height) intMax
  parentGen := List.replicate (width * height) 0
  parentVal := List.replicate (width * height) (-1)
  generationCounter := 0
  openHeap := []
  requestQueue := []
  resultQueue := []

/-- `setGridOffset(float offset_x, float offset_z)`. -/
def setGridOffset (pf : Pathfinding) (offsetX offsetZ : ℚ) : Pathfinding :=
  { pf with gridOffsetX := offsetX, gridOffsetZ := offsetZ }

/-- Read one cell of `m_obstacles` (`true` = blocked). -/
def blockedAt (pf : Pathfinding) (x y : Nat) : Bool :=
  (pf.obstacles.getD y []).getD x false

/-- `setObstacle(int x, int y, bool isObstacle)`: in-range cells are written
directly, out-of-range coordinates are silently ignored. -/
def setObstacle (pf : Pathfinding) (x y : Int) (isObstacle : Bool) : Pathfinding :=
  if 0 ≤ x ∧ x < (pf.width : Int) ∧ 0 ≤ y ∧ y < (pf.height : Int) then
    { pf with obstacles :=
        pf.obstacles.set y.toNat ((pf.obstacles.getD y.toNat []).set x.toNat isObstacle) }
  else pf

/-- `isWalkable(int x, int y)`: out-of-range is `false`, in-range cells are
walkable when the obstacle flag is clear. -/
def isWalkable (pf : Pathfinding) (x y : Int) : Bool :=
  if x < 0 ∨ x ≥ (pf.width : Int) ∨ y < 0 ∨ y ≥ (pf.height : Int) then false
  else !(pf.blockedAt x.toNat y.toNat)

/-- `markObstaclesDirty()`. -/
def markObstaclesDirty (pf : Pathfinding) : Pathfinding :=
  { pf with obstaclesDirty := true }

/-- Modelled from the spec: `toIndex` (declared in the missing header
`pathfinding.h`), the flattened row-major cell index `y * width + x`. -/
def toIndex (pf : Pathfinding) (p : Point) : Int :=
  p.y * (pf.width : Int) + p.x

/-- Modelled from the spec: `toPoint` (declared in the missing header),
the inverse of the row-major flattening. C++ `%` and `/` truncate toward
zero; `Int.tmod` and `Int.tdiv` have exactly that semantics. -/
def toPoint (pf : Pathfinding) (index : Int) : Point :=
  ⟨index.tmod (pf.width : Int), index.tdiv (pf.width : Int)⟩

/-- `calculateHeuristic`: Manhattan distance. -/
def calculateHeuristic (a b : Point) : Int :=
  (a.x - b.x).natAbs + (a.y - b.y).natAbs

/-- `resetGenerations()`: the rare O(n) clear of every scratch array,
restarting the counter at zero. -/
def resetGenerations (pf : Pathfinding) : Pathfinding :=
  { pf with
    closedGen := pf.closedGen.map fun _ => 0
    gCostGen := pf.gCostGen.map fun _ => 0
    parentGen := pf.parentGen.map fun _ => 0
    gCostVal := pf.gCostVal.map fun _ => intMax
    parentVal := pf.parentVal.map fun _ => -1
    generationCounter := 0 }

/-- `nextGeneration()`: increment the 32-bit counter; exactly when the
increment wraps to zero, clear all scratch arrays and restart. Returns the
fresh generation together with the updated state. -/
def nextGeneration (pf : Pathfinding) : Nat × Pathfinding :=
  let next := (pf.generationCounter + 1) % uint32Mod
  if next = 0 then
    let pf := resetGenerations pf
    let next := (pf.generationCounter + 1) % uint32Mod
    (next, { pf with generationCounter := next })
  else
    (next, { pf with generationCounter := next })

/-- `isClosed(int index, uint32_t generation)`: bounds-guarded read of the
closed-stamp vector. -/
def isClosed (pf : Pathfinding) (index : Int) (generation : Nat) : Bool :=
  decide (0 ≤ index) && decide (index.toNat < pf.closedGen.length) &&
    decide (pf.closedGen.getD index.toNat 0 = generation)

/-- `setClosed(int index, uint32_t generation)`. -/
def setClosed (pf : Pathfinding) (index : Int) (generation : Nat) : Pathfinding :=
  if 0 ≤ index ∧ index.toNat < pf.closedGen.length then
    { pf with closedGen := pf.closedGen.set index.toNat generation }
  else pf

/-- `getGCost(int index, uint32_t generation)`: the stored cost when the
stored generation matches, else the sentinel `INT_MAX`. -/
def getGCost (pf : Pathfinding) (index : Int) (generation : Nat) : Int :=
  if 0 ≤ index ∧ index.toNat < pf.gCostGen.length then
    if pf.gCostGen.getD index.toNat 0 = generation then
      pf.gCostVal.getD index.toNat intMax
    else intMax
  else intMax

/-- `setGCost(int index, uint32_t generation, int cost)`. -/
def setGCost (pf : Pathfinding) (index : Int) (generation : Nat) (cost : Int) :
    Pathfinding :=
  if 0 ≤ index ∧ index.toNat < pf.gCostGen.length then
    { pf with
      gCostGen := pf.gCostGen.set index.toNat generation
      gCostVal := pf.gCostVal.set index.toNat cost }
  else pf

/-- `hasParent(int index, uint32_t generation)`. -/
def hasParent (pf : Pathfinding) (index : Int) (generation : Nat) : Bool :=
  decide (0 ≤ index) && decide (index.toNat < pf.parentGen.length) &&
    decide (pf.parentGen.getD index.toNat 0 = generation)

/-- `getParent(int index, uint32_t generation)`: `-1` when no parent is
stamped with this generation. -/
def getParent (pf : Pathfinding) (index : Int) (generation : Nat) : Int :=
  if pf.hasParent index generation then pf.parentVal.getD index.toNat (-1)
  else -1

/-- `setParent(int index, uint32_t generation, int parentIndex)`. -/
def setParent (pf : Pathfinding) (index : Int) (generation : Nat)
    (parentIndex : Int) : Pathfinding :=
  if 0 ≤ index ∧ index.toNat < pf.parentGen.length then
    { pf with
      parentGen := pf.parentGen.set index.toNat generation
      parentVal := pf.parentVal.set index.toNat parentIndex }
  else pf

/-- `heapLess(const QueueNode&, const QueueNode&)`: ascending `fCost`,
ties broken by ascending `gCost`. -/
def heapLess (lhs rhs : QueueNode) : Bool :=
  if lhs.fCost ≠ rhs.fCost then decide (lhs.fCost < rhs.fCost)
  else decide (lhs.gCost < rhs.gCost)

/-- Swap two positions of the heap vector. -/
def heapSwap (heap : List QueueNode) (i j : Nat) : List QueueNode :=
  let a := heap.getD i default
  let b := heap.getD j default
  (heap.set i b).set j a

/-- The sift-up loop of `pushOpenNode`: while the new node is at a
position `index > 0` and not larger than its parent, swap it upward. The
sift index strictly decreases, so `fuel := heap.length` (≥ the start
index + 1) never runs out on the calls the engine makes. -/
def siftUp (fuel : Nat) (heap : List QueueNode) (index : Nat) : List QueueNode :=
  match fuel with
  | 0 => heap
  | fuel + 1 =>
    if index = 0 then heap
    else
      let parent := (index - 1) / 2
      if heapLess (heap.getD parent default) (heap.getD index default) then heap
      else siftUp fuel (heapSwap heap parent index) parent

/-- `pushOpenNode(const QueueNode&)`: append then sift up. -/
def pushOpenNode (pf : Pathfinding) (node : QueueNode) : Pathfinding :=
  let heap := pf.openHeap ++ [node]
  { pf with openHeap := siftUp heap.length heap (heap.length - 1) }

/-- The sift-down loop of `popOpenNode`. The sift index strictly increases
and stays below the heap size, so `fuel := heap.length + 1` never runs out
on the calls the engine makes. -/
def siftDown (fuel : Nat) (heap : List QueueNode) (index : Nat) : List QueueNode :=
  match fuel with
  | 0 => heap
  | fuel + 1 =>
    let size := heap.length
    let left := index * 2 + 1
    let right := left + 1
    let s1 := if left < size && !heapLess (heap.getD index default) (heap.getD left default)
      then left else index
    let s2 := if right < size && !heapLess (heap.getD s1 default) (heap.getD right default)
      then right else s1
    if s2 = index then heap
    else siftDown fuel (heapSwap heap index s2) s2

/-- `popOpenNode()`: remove the root, move the last element to the root,
sift it down; returns the removed minimum together with the new state. -/
def popOpenNode (pf : Pathfinding) : QueueNode × Pathfinding :=
  let top := pf.openHeap.getD 0 default
  let last := pf.openHeap.getLastD default
  let heap := pf.openHeap.dropLast
  if heap.isEmpty then (top, { pf with openHeap := heap })
  else (top, { pf with openHeap := siftDown (heap.length + 1) (heap.set 0 last) 0 })

/-- The neighbor offsets enumerated by the `dx`-outer / `dy`-inner double
loop of `collectNeighbors`, in loop order. -/
def neighborOffsets : List (Int × Int) :=
  [(-1, -1), (-1, 0), (-1, 1), (0, -1), (0, 1), (1, -1), (1, 0), (1, 1)]

/-- One iteration of the `collectNeighbors` loop body: bounds check, then
the corner-cutting check for diagonal offsets, then append. -/
def collectStep (pf : Pathfinding) (point : Point) (buffer : List Point)
    (d : Int × Int) : List Point :=
  let x := point.x + d.1
  let y := point.y + d.2
  if x < 0 ∨ x ≥ (pf.width : Int) ∨ y < 0 ∨ y ≥ (pf.height : Int) then buffer
  else if d.1 ≠ 0 ∧ d.2 ≠ 0 ∧
      ¬(pf.isWalkable (point.x + d.1) point.y = true ∧
        pf.isWalkable point.x (point.y + d.2) = true) then buffer
  else buffer ++ [⟨x, y⟩]

/-- `collectNeighbors(const Point&, std::array<Point, 8>&)`: the admitted
neighbors of `point`, in loop order. -/
def collectNeighbors (pf : Pathfinding) (point : Point) : List Point :=
  neighborOffsets.foldl (collectStep pf point) []

/-- The body of the neighbor `for` loop inside `findPathInternal`: skip
unwalkable, closed, or not-strictly-better neighbors; otherwise stamp cost
and parent and push an open entry. -/
def expandNeighbor (pf : Pathfinding) (generation : Nat) (current : QueueNode)
    (endP : Point) (neighbor : Point) : Pathfinding :=
  if ¬(pf.isWalkable neighbor.x neighbor.y = true) then pf
  else
    let neighborIdx := pf.toIndex neighbor
    if pf.isClosed neighborIdx generation = true then pf
    else
      let tentative := current.gCost + 1
      if tentative ≥ pf.getGCost neighborIdx generation then pf
      else
        let pf := pf.setGCost neighborIdx generation tentative
        let pf := pf.setParent neighborIdx generation current.index
        let hCost := calculateHeuristic neighbor endP
        pf.pushOpenNode ⟨neighborIdx, tentative + hCost, tentative⟩

/-- Outcome of one iteration of the main `while` loop: `done` is the
`break` on closing the end cell (carrying `final_cost`), `next` continues
with the updated state. -/
inductive StepResult where
  | done : Int → Pathfinding → Nat → StepResult
  | next : Pathfinding → Nat → StepResult
deriving DecidableEq, Repr

/-- The body of one iteration of the main `while` loop of
`findPathInternal` (after the `++iterations` at the loop head): pop the
minimum entry, discard it when stale or closed (lazy deletion), close it,
break when it is the end cell, otherwise expand its admitted neighbors. -/
def searchStep (generation : Nat) (endIdx : Int) (endP : Point)
    (pf : Pathfinding) (iterations : Nat) : StepResult :=
  let popped := pf.popOpenNode
  let current := popped.1
  let pf := popped.2
  if current.gCost > pf.getGCost current.index generation then
    .next pf iterations
  else if pf.isClosed current.index generation = true then
    .next pf iterations
  else
    let pf := pf.setClosed current.index generation
    if current.index = endIdx then .done current.gCost pf iterations
    else
      let currentPoint := pf.toPoint current.index
      let neighbors := pf.collectNeighbors currentPoint
      let pf := neighbors.foldl
        (fun s n => expandNeighbor s generation current endP n) pf
      .next pf iterations

/-- The main `while` loop of `findPathInternal`. `fuel` starts at
`maxIter`, so `fuel = maxIter - iterations` throughout and the fuel-zero
branch coincides with the `iterations < max_iterations` exit. Returns
`(final_cost, state, iterations)`. -/
def searchLoop (generation : Nat) (endIdx : Int) (endP : Point) (maxIter : Nat) :
    Nat → Pathfinding → Nat → Int → Int × Pathfinding × Nat
  | 0, pf, iterations, finalCost => (finalCost, pf, iterations)
  | fuel + 1, pf, iterations, finalCost =>
    if pf.openHeap.isEmpty ∨ ¬(iterations < maxIter) then (finalCost, pf, iterations)
    else
      match searchStep generation endIdx endP pf (iterations + 1) with
      | .done r pf' iterations' => (r, pf', iterations')
      | .next pf' iterations' =>
        searchLoop generation endIdx endP maxIter fuel pf' iterations' finalCost

/-- The parent-walk loop of `buildPath`: walk parent links from the end
cell back to the start cell, then reverse. The C++ loop is unbounded and
would diverge on a cyclic parent chain; the search never creates one, and
`fuel` (instantiated at `totalCells + 1`, an upper bound on the length of
any acyclic chain) returns the cleared (empty) path when exhausted. -/
def buildPathLoop (pf : Pathfinding) (generation : Nat) (startIndex : Int) :
    Nat → Int → List Point → List Point
  | 0, _, _ => []
  | fuel + 1, current, outPath =>
    if current < 0 then []
    else
      let outPath := outPath ++ [pf.toPoint current]
      if current = startIndex then outPath.reverse
      else if ¬(pf.hasParent current generation = true) then []
      else
        let parent := pf.getParent current generation
        if parent = current ∨ parent < 0 then []
        else buildPathLoop pf generation startIndex fuel parent outPath

/-- `buildPath(int startIndex, int endIndex, uint32_t generation, int
expectedLength, std::vector<Point>&)`; `expectedLength` only reserves
capacity in the C++ and does not affect the result. -/
def buildPath (pf : Pathfinding) (startIndex endIndex : Int) (generation : Nat) :
    List Point :=
  buildPathLoop pf generation startIndex (pf.totalCells + 1) endIndex []

/-- `ensureWorkingBuffers()`: size every scratch vector to
`width * height` when the closed-stamp vector does not already have that
size (the check the C++ makes); the open-heap `reserve` only affects
capacity and is a no-op here. -/
def ensureWorkingBuffers (pf : Pathfinding) : Pathfinding :=
  let totalCells := pf.width * pf.height
  if pf.closedGen.length ≠ totalCells then
    { pf with
      closedGen := List.replicate totalCells 0
      gCostGen := List.replicate totalCells 0
      gCostVal := List.replicate totalCells intMax
      parentGen := List.replicate totalCells 0
      parentVal := List.replicate totalCells (-1) }
  else pf

/-- `findPathInternal(const Point&, const Point&)` with the loop counter
and the final cost also returned: `(path, state, iterations, generation,
final_cost)`. -/
def findPathInternalStats (pf : Pathfinding) (start endP : Point) :
    List Point × Pathfinding × Nat × Nat × Int :=
  let pf := pf.ensureWorkingBuffers
  if ¬(pf.isWalkable start.x start.y = true ∧ pf.isWalkable endP.x endP.y = true) then
    ([], pf, 0, 0, -1)
  else
    let startIdx := pf.toIndex start
    let endIdx := pf.toIndex endP
    if startIdx = endIdx then ([start], pf, 0, 0, 0)
    else
      let gp := pf.nextGeneration
      let generation := gp.1
      let pf := { gp.2 with openHeap := ([] : List QueueNode) }
      let pf := pf.setGCost startIdx generation 0
      let pf := pf.setParent startIdx generation startIdx
      let pf := pf.pushOpenNode ⟨startIdx, calculateHeuristic start endP, 0⟩
      let maxIter := max (pf.width * pf.height) 1
      let res := searchLoop generation endIdx endP maxIter maxIter pf 0 (-1)
      let finalCost := res.1
      let pf := res.2.1
      let iterations := res.2.2
      if finalCost < 0 then ([], pf, iterations, generation, finalCost)
      else (pf.buildPath startIdx endIdx generation, pf, iterations, generation, finalCost)

/-- `findPathInternal`: the path and the state, as the C++ returns them. -/
def findPathInternal (pf : Pathfinding) (start endP : Point) :
    List Point × Pathfinding :=
  let r := findPathInternalStats pf start endP
  (r.1, r.2.1)

/-- One cell of the nested obstacle grid (`true` = blocked). -/
def gridBlockedAt (grid : List (List Bool)) (x y : Nat) : Bool :=
  (grid.getD y []).getD x false

/-- The full clear at the top of `updateBuildingObstacles`
(`std::fill` of every row with 0). -/
def clearedGrid (pf : Pathfinding) : List (List Bool) :=
  List.replicate pf.height (List.replicate pf.width false)

/-- The terrain pass of `updateBuildingObstacles`: writing the blocked
cells onto the cleared grid row by row is the same as building each row
directly; a cell is blocked exactly when it lies outside the height map's
bounds, or the terrain service reports it unwalkable. -/
def terrainPass (pf : Pathfinding) (t : TerrainSource) : List (List Bool) :=
  (List.range pf.height).map fun (z : Nat) =>
    (List.range pf.width).map fun (x : Nat) =>
      if (x : Int) < t.width ∧ (z : Int) < t.height then
        !(t.walkable (x : Int) (z : Int))
      else true

/-- The per-cell body of the building overlay loop: convert the world cell
by subtracting the grid offset and rounding, write it when in range,
silently ignore it otherwise. -/
def setBuildingCell (pf : Pathfinding) (grid : List (List Bool)) (cell : ℚ × ℚ) :
    List (List Bool) :=
  let gridX := cround (cell.1 - pf.gridOffsetX)
  let gridZ := cround (cell.2 - pf.gridOffsetZ)
  if 0 ≤ gridX ∧ gridX < (pf.width : Int) ∧ 0 ≤ gridZ ∧ gridZ < (pf.height : Int) then
    grid.set gridZ.toNat ((grid.getD gridZ.toNat []).set gridX.toNat true)
  else grid

/-- `updateBuildingObstacles()`: double-checked rebuild. If the dirty flag
is clear, return; otherwise clear the grid, overlay terrain walkability
(skipped entirely when the terrain service is uninitialized), overlay
every building footprint cell, and clear the dirty flag. The lock and the
second flag check serialize concurrent rebuilds; sequentially they
collapse into the single flag test. -/
def updateBuildingObstacles (pf : Pathfinding) (terrain : Option TerrainSource)
    (buildings : BuildingCells) : Pathfinding :=
  if ¬(pf.obstaclesDirty = true) then pf
  else
    let grid := clearedGrid pf
    let grid := match terrain with
      | some t => terrainPass pf t
      | none => grid
    let grid := buildings.foldl (fun g cells => cells.foldl (setBuildingCell pf) g) grid
    { pf with obstacles := grid, obstaclesDirty := false }

/-- `findPath(const Point&, const Point&)`: rebuild the obstacle grid when
dirty, then run the search under the lock. The terrain service and the
building registry are the external sources consulted by the rebuild. -/
def findPath (pf : Pathfinding) (terrain : Option TerrainSource)
    (buildings : BuildingCells) (start endP : Point) : List Point × Pathfinding :=
  let pf := if pf.obstaclesDirty = true then pf.updateBuildingObstacles terrain buildings
    else pf
  pf.findPathInternal start endP

/-- `submitPathRequest(uint64_t, const Point&, const Point&)`: append to the
request queue (the worker is woken by the condition variable). -/
def submitPathRequest (pf : Pathfinding) (requestId : Nat) (start stop : Point) :
    Pathfinding :=
  { pf with requestQueue := pf.requestQueue ++ [⟨requestId, start, stop⟩] }

/-- The drain loop of `fetchCompletedPaths`: while the result queue is
non-empty, move its front to the back of `results`. -/
def fetchLoop : List PathResult → List PathResult → List PathResult × List PathResult
  | results, [] => (results, [])
  | results, r :: rest => fetchLoop (results ++ [r]) rest

/-- `fetchCompletedPaths()`: drain and return the entire result queue. -/
def fetchCompletedPaths (pf : Pathfinding) : List PathResult × Pathfinding :=
  let drained := fetchLoop [] pf.resultQueue
  (drained.1, { pf with resultQueue := drained.2 })

/-! ### Specification-side definitions

The following definitions are the vocabulary of the specification's claims;
they are written from the spec's words, to be compared with the engine. -/

/-- One legal move of the walkability grid as the spec describes it: a unit
8-neighbor step onto a walkable cell whose diagonal form does not cut a
corner (both flanking orthogonal cells walkable). -/
def validStep (pf : Pathfinding) (a b : Point) : Prop :=
  (b.x - a.x).natAbs ≤ 1 ∧ (b.y - a.y).natAbs ≤ 1 ∧ ¬(b.x = a.x ∧ b.y = a.y) ∧
  pf.isWalkable b.x b.y = true ∧
  ((b.x ≠ a.x ∧ b.y ≠ a.y) →
    pf.isWalkable b.x a.y = true ∧ pf.isWalkable a.x b.y = true)

/-- Modelled from the spec: one expansion layer of the independent
breadth-first search over the same walkability grid, under the same
neighbor admission rule (8-neighbors, no corner-cutting, walkable target);
returns the enlarged visited set and the new frontier. -/
def bfsStep (pf : Pathfinding) (visited frontier : List Point) :
    List Point × List Point :=
  let next := ((frontier.map fun p =>
      (pf.collectNeighbors p).filter fun q => pf.isWalkable q.x q.y).flatten.dedup).filter
    fun q => ¬ q ∈ visited
  (visited ++ next, next)

/-- Modelled from the spec: the layer loop of the breadth-first search;
`some d` means the end point first appears in layer `d` (shortest-path
move count `d` under uniform unit cost). -/
def bfsDistanceAux (pf : Pathfinding) (endP : Point) :
    Nat → List Point → List Point → Nat → Option Nat
  | 0, _, _, _ => none
  | fuel + 1, visited, frontier, dist =>
    if endP ∈ frontier then some dist
    else if frontier = [] then none
    else
      let stepped := bfsStep pf visited frontier
      bfsDistanceAux pf endP fuel stepped.1 stepped.2 (dist + 1)

/-- Modelled from the spec: shortest-path length (in moves) from `startP`
to `endP` by breadth-first search over the current walkability grid,
`none` when unreachable. -/
def bfsDistance (pf : Pathfinding) (startP endP : Point) : Option Nat :=
  if pf.isWalkable startP.x startP.y = true then
    bfsDistanceAux pf endP (pf.totalCells + 1) [startP] [startP] 0
  else none

/-- The fields of the engine state that a clean-grid search never writes:
the obstacle grid, its dimensions, the offsets, the dirty flag, and both
request pipeline queues. -/
def FrameEq (a b : Pathfinding) : Prop :=
  a.width = b.width ∧ a.height = b.height ∧ a.obstacles = b.obstacles ∧
  a.gridOffsetX = b.gridOffsetX ∧ a.gridOffsetZ = b.gridOffsetZ ∧
  a.obstaclesDirty = b.obstaclesDirty ∧
  a.requestQueue = b.requestQueue ∧ a.resultQueue = b.resultQueue

/-- Well-shaped nested obstacle grid: `height` rows of `width` cells each,
the shape established by the constructor and preserved by every write. -/
def gridDims (grid : List (List Bool)) (w h : Nat) : Prop :=
  grid.length = h ∧ ∀ row ∈ grid, row.length = w

/-- What passing the `collectNeighbors` guards says about an emitted
neighbor `q` of `point` for the offset `d`: `q` is the offset cell, it is
in bounds, and a diagonal offset has both flanking cells walkable. -/
def admissibleOffset (pf : Pathfinding) (point : Point) (d : Int × Int)
    (q : Point) : Prop :=
  q = ⟨point.x + d.1, point.y + d.2⟩ ∧
  0 ≤ point.x + d.1 ∧ point.x + d.1 < (pf.width : Int) ∧
  0 ≤ point.y + d.2 ∧ point.y + d.2 < (pf.height : Int) ∧
  (d.1 ≠ 0 ∧ d.2 ≠ 0 →
    pf.isWalkable (point.x + d.1) point.y = true ∧
    pf.isWalkable point.x (point.y + d.2) = true)

/-- The parent-link invariant maintained by the search at generation `g`:
every cell stamped with a parent, other than the self-parented start cell,
was reached by one legal move (in the grid of `pf0`) from its parent. -/
def goodParents (pf0 pf : Pathfinding) (g : Nat) (startIdx : Int) : Prop :=
  ∀ i : Int, pf.hasParent i g = true → i ≠ startIdx →
    validStep pf0 (pf0.toPoint (pf.getParent i g)) (pf0.toPoint i)

/-- The engine state carried by a loop-step outcome. -/
def stepState : StepResult → Pathfinding
  | .done _ pf _ => pf
  | .next pf _ => pf

/-- The iteration counter carried by a loop-step outcome. -/
def stepIter : StepResult → Nat
  | .done _ _ it => it
  | .next _ it => it

/-- A grid with the given cells blocked and the dirty flag already clear:
the state of a freshly built engine after its first rebuild over an
all-walkable terrain, followed by direct `setObstacle` edits. -/
def testGrid (w h : Nat) (blocked : List (Int × Int)) : Pathfinding :=
  { blocked.foldl (fun s c => s.setObstacle c.1 c.2 true) (init w h) with
    obstaclesDirty := false }

end Pathfinding

/-! ## Lemmas about the engine -/

namespace Pathfinding

theorem frameEq_refl (pf : Pathfinding) : FrameEq pf pf :=
  ⟨rfl, rfl, rfl, rfl, rfl, rfl, rfl, rfl⟩

theorem frameEq_trans {a b c : Pathfinding} (h1 : FrameEq a b) (h2 : FrameEq b c) :
    FrameEq a c := by
  obtain ⟨a1, a2, a3, a4, a5, a6, a7, a8⟩ := h1
  obtain ⟨b1, b2, b3, b4, b5, b6, b7, b8⟩ := h2
  exact ⟨a1.trans b1, a2.trans b2, a3.trans b3, a4.trans b4, a5.trans b5,
    a6.trans b6, a7.trans b7, a8.trans b8⟩

theorem totalCells_of_frameEq {a b : Pathfinding} (h : FrameEq a b) :
    a.totalCells = b.totalCells := by
  unfold totalCells; rw [h.1, h.2.1]

theorem isWalkable_of_frameEq {a b : Pathfinding} (h : FrameEq a b) (x y : Int) :
    a.isWalkable x y = b.isWalkable x y := by
  unfold isWalkable blockedAt; rw [h.1, h.2.1, h.2.2.1]

theorem toPoint_of_frameEq {a b : Pathfinding} (h : FrameEq a b) (i : Int) :
    a.toPoint i = b.toPoint i := by
  unfold toPoint; rw [h.1]

theorem toIndex_of_frameEq {a b : Pathfinding} (h : FrameEq a b) (p : Point) :
    a.toIndex p = b.toIndex p := by
  unfold toIndex; rw [h.1]

theorem validStep_of_frameEq {a b : Pathfinding} (h : FrameEq a b) (p q : Point) :
    validStep a p q ↔ validStep b p q := by
  unfold validStep
  rw [isWalkable_of_frameEq h, isWalkable_of_frameEq h, isWalkable_of_frameEq h]

theorem frameEq_setGCost (pf : Pathfinding) (i : Int) (g : Nat) (c : Int) :
    FrameEq (pf.setGCost i g c) pf := by
  unfold setGCost; split
  · exact ⟨rfl, rfl, rfl, rfl, rfl, rfl, rfl, rfl⟩
  · exact frameEq_refl pf

theorem frameEq_setParent (pf : Pathfinding) (i : Int) (g : Nat) (v : Int) :
    FrameEq (pf.setParent i g v) pf := by
  unfold setParent; split
  · exact ⟨rfl, rfl, rfl, rfl, rfl, rfl, rfl, rfl⟩
  · exact frameEq_refl pf

theorem frameEq_setClosed (pf : Pathfinding) (i : Int) (g : Nat) :
    FrameEq (pf.setClosed i g) pf := by
  unfold setClosed; split
  · exact ⟨rfl, rfl, rfl, rfl, rfl, rfl, rfl, rfl⟩
  · exact frameEq_refl pf

theorem frameEq_pushOpenNode (pf : Pathfinding) (n : QueueNode) :
    FrameEq (pf.pushOpenNode n) pf :=
  ⟨rfl, rfl, rfl, rfl, rfl, rfl, rfl, rfl⟩

theorem frameEq_popOpenNode (pf : Pathfinding) :
    FrameEq pf.popOpenNode.2 pf := by
  unfold popOpenNode; dsimp only; split
  · exact ⟨rfl, rfl, rfl, rfl, rfl, rfl, rfl, rfl⟩
  · exact ⟨rfl, rfl, rfl, rfl, rfl, rfl, rfl, rfl⟩

theorem frameEq_resetGenerations (pf : Pathfinding) :
    FrameEq (resetGenerations pf) pf :=
  ⟨rfl, rfl, rfl, rfl, rfl, rfl, rfl, rfl⟩

theorem frameEq_nextGeneration (pf : Pathfinding) :
    FrameEq pf.nextGeneration.2 pf := by
  unfold nextGeneration; dsimp only; split
  · exact ⟨rfl, rfl, rfl, rfl, rfl, rfl, rfl, rfl⟩
  · exact ⟨rfl, rfl, rfl, rfl, rfl, rfl, rfl, rfl⟩

theorem setGCost_parentGen (pf : Pathfinding) (i : Int) (g : Nat) (c : Int) :
    (pf.setGCost i g c).parentGen = pf.parentGen := by
  unfold setGCost; split <;> rfl

theorem setGCost_parentVal (pf : Pathfinding) (i : Int) (g : Nat) (c : Int) :
    (pf.setGCost i g c).parentVal = pf.parentVal := by
  unfold setGCost; split <;> rfl

theorem setGCost_closedGen (pf : Pathfinding) (i : Int) (g : Nat) (c : Int) :
    (pf.setGCost i g c).closedGen = pf.closedGen := by
  unfold setGCost; split <;> rfl

theorem setParent_closedGen (pf : Pathfinding) (i : Int) (g : Nat) (v : Int) :
    (pf.setParent i g v).closedGen = pf.closedGen := by
  unfold setParent; split <;> rfl

theorem setClosed_parentGen (pf : Pathfinding) (i : Int) (g : Nat) :
    (pf.setClosed i g).parentGen = pf.parentGen := by
  unfold setClosed; split <;> rfl

theorem setClosed_parentVal (pf : Pathfinding) (i : Int) (g : Nat) :
    (pf.setClosed i g).parentVal = pf.parentVal := by
  unfold setClosed; split <;> rfl

theorem pushOpenNode_parentGen (pf : Pathfinding) (n : QueueNode) :
    (pf.pushOpenNode n).parentGen = pf.parentGen := rfl

theorem pushOpenNode_parentVal (pf : Pathfinding) (n : QueueNode) :
    (pf.pushOpenNode n).parentVal = pf.parentVal := rfl

theorem pushOpenNode_closedGen (pf : Pathfinding) (n : QueueNode) :
    (pf.pushOpenNode n).closedGen = pf.closedGen := rfl

theorem popOpenNode_parentGen (pf : Pathfinding) :
    pf.popOpenNode.2.parentGen = pf.parentGen := by
  unfold popOpenNode; dsimp only; split <;> rfl

theorem popOpenNode_parentVal (pf : Pathfinding) :
    pf.popOpenNode.2.parentVal = pf.parentVal := by
  unfold popOpenNode; dsimp only; split <;> rfl

theorem popOpenNode_closedGen (pf : Pathfinding) :
    pf.popOpenNode.2.closedGen = pf.closedGen := by
  unfold popOpenNode; dsimp only; split <;> rfl

theorem popOpenNode_gCostGen (pf : Pathfinding) :
    pf.popOpenNode.2.gCostGen = pf.gCostGen := by
  unfold popOpenNode; dsimp only; split <;> rfl

theorem popOpenNode_gCostVal (pf : Pathfinding) :
    pf.popOpenNode.2.gCostVal = pf.gCostVal := by
  unfold popOpenNode; dsimp only; split <;> rfl

theorem getD_set_self {α : Type} {l : List α} {i : Nat} (h : i < l.length)
    {a d : α} : (l.set i a).getD i d = a := by
  rw [List.getD_eq_getElem?_getD, List.getElem?_set_self']
  simp [List.getElem?_eq_getElem h]

theorem getD_set_ne {α : Type} {l : List α} {i j : Nat} (hne : i ≠ j)
    {a d : α} : (l.set i a).getD j d = l.getD j d := by
  rw [List.getD_eq_getElem?_getD, List.getElem?_set_ne hne,
    ← List.getD_eq_getElem?_getD]

theorem getD_map_zero (l : List Nat) (k : Nat) :
    (l.map fun _ => 0).getD k 0 = 0 := by
  rcases Nat.lt_or_ge k l.length with hk | hk
  · rw [List.getD_eq_getElem?_getD, List.getElem?_map,
      List.getElem?_eq_getElem hk]
    rfl
  · rw [List.getD_eq_getElem?_getD, List.getElem?_map,
      List.getElem?_eq_none (by simpa using hk)]
    rfl

theorem hasParent_congr {a b : Pathfinding} (hg : a.parentGen = b.parentGen)
    (i : Int) (g : Nat) :
    a.hasParent i g = b.hasParent i g := by
  unfold hasParent; rw [hg]

theorem getParent_congr {a b : Pathfinding} (hg : a.parentGen = b.parentGen)
    (hv : a.parentVal = b.parentVal) (i : Int) (g : Nat) :
    a.getParent i g = b.getParent i g := by
  unfold getParent; rw [hasParent_congr hg, hv]

theorem hasParent_eq_true_iff (pf : Pathfinding) (i : Int) (g : Nat) :
    pf.hasParent i g = true ↔
      0 ≤ i ∧ i.toNat < pf.parentGen.length ∧ pf.parentGen.getD i.toNat 0 = g := by
  unfold hasParent
  simp [Bool.and_assoc]

theorem isClosed_eq_true_iff (pf : Pathfinding) (i : Int) (g : Nat) :
    pf.isClosed i g = true ↔
      0 ≤ i ∧ i.toNat < pf.closedGen.length ∧ pf.closedGen.getD i.toNat 0 = g := by
  unfold isClosed
  simp [Bool.and_assoc]

theorem setParent_eq_or (pf : Pathfinding) (i : Int) (g : Nat) (v : Int) :
    pf.setParent i g v = pf ∨ (0 ≤ i ∧ i.toNat < pf.parentGen.length) := by
  unfold setParent
  split
  · next h => exact Or.inr h
  · exact Or.inl rfl

theorem hasParent_setParent_self {pf : Pathfinding} {i : Int}
    (h0 : 0 ≤ i) (h1 : i.toNat < pf.parentGen.length) (g : Nat) (v : Int) :
    (pf.setParent i g v).hasParent i g = true := by
  rw [hasParent_eq_true_iff]
  unfold setParent
  rw [if_pos ⟨h0, h1⟩]
  dsimp only
  refine ⟨h0, ?_, ?_⟩
  · rw [List.length_set]
    exact h1
  · exact getD_set_self h1

theorem getParent_setParent_self {pf : Pathfinding} {i : Int}
    (h0 : 0 ≤ i) (h1 : i.toNat < pf.parentGen.length)
    (h2 : i.toNat < pf.parentVal.length) (g : Nat) (v : Int) :
    (pf.setParent i g v).getParent i g = v := by
  unfold getParent
  rw [hasParent_setParent_self h0 h1 g v, if_pos rfl]
  unfold setParent
  rw [if_pos ⟨h0, h1⟩]
  dsimp only
  exact getD_set_self h2

theorem hasParent_setParent_ne {pf : Pathfinding} {i j : Int} (hne : j ≠ i)
    (g g' : Nat) (v : Int) :
    (pf.setParent i g v).hasParent j g' = pf.hasParent j g' := by
  unfold setParent
  split
  · next hg =>
    unfold hasParent
    dsimp only
    by_cases h0 : 0 ≤ j
    · have hij : i.toNat ≠ j.toNat := by omega
      rw [getD_set_ne hij, List.length_set]
    · simp [h0]
  · rfl

theorem getParent_setParent_ne {pf : Pathfinding} {i j : Int} (hne : j ≠ i)
    (g g' : Nat) (v : Int) :
    (pf.setParent i g v).getParent j g' = pf.getParent j g' := by
  unfold getParent
  rw [hasParent_setParent_ne hne]
  split
  · next hp =>
    unfold setParent
    split
    · next hg =>
      have h0 : 0 ≤ j := ((hasParent_eq_true_iff pf j g').mp hp).1
      have hij : i.toNat ≠ j.toNat := by omega
      dsimp only
      exact getD_set_ne hij
    · rfl
  · rfl

theorem nextGeneration_parentGen_ne {pf : Pathfinding}
    (hc : pf.generationCounter < uint32Mod)
    (hp : ∀ k, pf.parentGen.getD k 0 ≤ pf.generationCounter) (k : Nat) :
    pf.nextGeneration.2.parentGen.getD k 0 ≠ pf.nextGeneration.1 := by
  unfold nextGeneration
  by_cases h : (pf.generationCounter + 1) % uint32Mod = 0
  · simp only [h, if_pos]
    dsimp only [resetGenerations]
    rw [getD_map_zero]
    simp [uint32Mod]
  · simp only [h, if_neg, ite_false]
    have hlt : pf.generationCounter + 1 < uint32Mod := by
      rcases Nat.lt_or_ge (pf.generationCounter + 1) uint32Mod with h1 | h1
      · exact h1
      · have : pf.generationCounter + 1 = uint32Mod := by omega
        rw [this] at h
        simp at h
    rw [Nat.mod_eq_of_lt hlt]
    have := hp k
    omega

theorem nextGeneration_closedGen_ne {pf : Pathfinding}
    (hc : pf.generationCounter < uint32Mod)
    (hp : ∀ k, pf.closedGen.getD k 0 ≤ pf.generationCounter) (k : Nat) :
    pf.nextGeneration.2.closedGen.getD k 0 ≠ pf.nextGeneration.1 := by
  unfold nextGeneration
  by_cases h : (pf.generationCounter + 1) % uint32Mod = 0
  · simp only [h, if_pos]
    dsimp only [resetGenerations]
    rw [getD_map_zero]
    simp [uint32Mod]
  · simp only [h, if_neg, ite_false]
    have hlt : pf.generationCounter + 1 < uint32Mod := by
      rcases Nat.lt_or_ge (pf.generationCounter + 1) uint32Mod with h1 | h1
      · exact h1
      · have : pf.generationCounter + 1 = uint32Mod := by omega
        rw [this] at h
        simp at h
    rw [Nat.mod_eq_of_lt hlt]
    have := hp k
    omega

theorem nextGeneration_gCostGen_ne {pf : Pathfinding}
    (hc : pf.generationCounter < uint32Mod)
    (hp : ∀ k, pf.gCostGen.getD k 0 ≤ pf.generationCounter) (k : Nat) :
    pf.nextGeneration.2.gCostGen.getD k 0 ≠ pf.nextGeneration.1 := by
  unfold nextGeneration
  by_cases h : (pf.generationCounter + 1) % uint32Mod = 0
  · simp only [h, if_pos]
    dsimp only [resetGenerations]
    rw [getD_map_zero]
    simp [uint32Mod]
  · simp only [h, if_neg, ite_false]
    have hlt : pf.generationCounter + 1 < uint32Mod := by
      rcases Nat.lt_or_ge (pf.generationCounter + 1) uint32Mod with h1 | h1
      · exact h1
      · have : pf.generationCounter + 1 = uint32Mod := by omega
        rw [this] at h
        simp at h
    rw [Nat.mod_eq_of_lt hlt]
    have := hp k
    omega

theorem nextGeneration_hasParent_false {pf : Pathfinding}
    (hc : pf.generationCounter < uint32Mod)
    (hp : ∀ k, pf.parentGen.getD k 0 ≤ pf.generationCounter) (i : Int) :
    pf.nextGeneration.2.hasParent i pf.nextGeneration.1 = false := by
  rw [Bool.eq_false_iff]
  intro hcon
  rw [hasParent_eq_true_iff] at hcon
  exact nextGeneration_parentGen_ne hc hp i.toNat hcon.2.2

theorem nextGeneration_isClosed_false {pf : Pathfinding}
    (hc : pf.generationCounter < uint32Mod)
    (hp : ∀ k, pf.closedGen.getD k 0 ≤ pf.generationCounter) (i : Int) :
    pf.nextGeneration.2.isClosed i pf.nextGeneration.1 = false := by
  rw [Bool.eq_false_iff]
  intro hcon
  rw [isClosed_eq_true_iff] at hcon
  exact nextGeneration_closedGen_ne hc hp i.toNat hcon.2.2

theorem nextGeneration_getGCost_sentinel {pf : Pathfinding}
    (hc : pf.generationCounter < uint32Mod)
    (hp : ∀ k, pf.gCostGen.getD k 0 ≤ pf.generationCounter) (i : Int) :
    pf.nextGeneration.2.getGCost i pf.nextGeneration.1 = intMax := by
  unfold getGCost
  split
  · split
    · next hgen => exact absurd hgen (nextGeneration_gCostGen_ne hc hp i.toNat)
    · rfl
  · rfl

theorem nextGeneration_getParent_none {pf : Pathfinding}
    (hc : pf.generationCounter < uint32Mod)
    (hp : ∀ k, pf.parentGen.getD k 0 ≤ pf.generationCounter) (i : Int) :
    pf.nextGeneration.2.getParent i pf.nextGeneration.1 = -1 := by
  unfold getParent
  rw [nextGeneration_hasParent_false hc hp i]
  rfl

theorem toPoint_toIndex {pf : Pathfinding} {p : Point} (hx0 : 0 ≤ p.x)
    (hxw : p.x < (pf.width : Int)) (hy0 : 0 ≤ p.y) :
    pf.toPoint (pf.toIndex p) = p := by
  obtain ⟨px, py⟩ := p
  simp only at hx0 hxw hy0
  have hw : (0 : Int) < (pf.width : Int) := lt_of_le_of_lt hx0 hxw
  have hnn : 0 ≤ py * (pf.width : Int) + px :=
    add_nonneg (mul_nonneg hy0 hw.le) hx0
  unfold toPoint toIndex
  rw [Int.tmod_eq_emod hnn hw.le, Int.tdiv_eq_ediv hnn hw.le]
  have hm : (py * (pf.width : Int) + px) % (pf.width : Int) = px := by
    rw [add_comm, Int.add_mul_emod_self]
    exact Int.emod_eq_of_lt hx0 hxw
  have hd : (py * (pf.width : Int) + px) / (pf.width : Int) = py := by
    rw [add_comm, Int.add_mul_ediv_right _ _ hw.ne.symm,
      Int.ediv_eq_zero_of_lt hx0 hxw, zero_add]
  rw [hm, hd]

theorem toIndex_range {pf : Pathfinding} {p : Point} (hx0 : 0 ≤ p.x)
    (hxw : p.x < (pf.width : Int)) (hy0 : 0 ≤ p.y)
    (hyh : p.y < (pf.height : Int)) :
    0 ≤ pf.toIndex p ∧ (pf.toIndex p).toNat < pf.totalCells := by
  unfold toIndex totalCells
  have hw : (0 : Int) < (pf.width : Int) := lt_of_le_of_lt hx0 hxw
  have h1 : 0 ≤ p.y * (pf.width : Int) + p.x :=
    add_nonneg (mul_nonneg hy0 hw.le) hx0
  have h2 : p.y * (pf.width : Int) + p.x < ((pf.width * pf.height : Nat) : Int) := by
    have s1 : p.y * (pf.width : Int) + p.x < (p.y + 1) * (pf.width : Int) := by
      have : (p.y + 1) * (pf.width : Int) = p.y * (pf.width : Int) + (pf.width : Int) := by
        ring
      omega
    have s2 : (p.y + 1) * (pf.width : Int) ≤ (pf.height : Int) * (pf.width : Int) :=
      mul_le_mul_of_nonneg_right (by omega) hw.le
    have s3 : ((pf.width * pf.height : Nat) : Int) = (pf.height : Int) * (pf.width : Int) := by
      push_cast
      ring
    omega
  omega

theorem isWalkable_bounds {pf : Pathfinding} {x y : Int}
    (h : pf.isWalkable x y = true) :
    0 ≤ x ∧ x < (pf.width : Int) ∧ 0 ≤ y ∧ y < (pf.height : Int) := by
  unfold isWalkable at h
  split at h
  · exact absurd h (by simp)
  · next hb =>
    push_neg at hb
    exact ⟨hb.1, hb.2.1, hb.2.2.1, hb.2.2.2⟩

theorem collectStep_mem {pf : Pathfinding} {point : Point} {buf : List Point}
    {d : Int × Int} {q : Point} (h : q ∈ collectStep pf point buf d) :
    q ∈ buf ∨ admissibleOffset pf point d q := by
  unfold collectStep at h
  dsimp only at h
  split at h
  · exact Or.inl h
  · next hb =>
    split at h
    · exact Or.inl h
    · next hd =>
      rw [List.mem_append] at h
      rcases h with h | h
      · exact Or.inl h
      · right
        rw [List.mem_singleton] at h
        push_neg at hb
        refine ⟨h, hb.1, hb.2.1, hb.2.2.1, hb.2.2.2, ?_⟩
        intro hdiag
        by_contra hcon
        exact hd ⟨hdiag.1, hdiag.2, fun hc => hcon hc⟩

theorem foldl_collectStep_mem {pf : Pathfinding} {point : Point} :
    ∀ (l : List (Int × Int)) (buf : List Point) (q : Point),
    q ∈ l.foldl (collectStep pf point) buf →
    q ∈ buf ∨ ∃ d ∈ l, admissibleOffset pf point d q := by
  intro l
  induction l with
  | nil => intro buf q h; exact Or.inl h
  | cons d rest ih =>
    intro buf q h
    rw [List.foldl_cons] at h
    rcases ih (collectStep pf point buf d) q h with h1 | h1
    · rcases collectStep_mem h1 with h2 | h2
      · exact Or.inl h2
      · exact Or.inr ⟨d, List.mem_cons_self d rest, h2⟩
    · obtain ⟨d', hd', ho⟩ := h1
      exact Or.inr ⟨d', List.mem_cons_of_mem d hd', ho⟩

theorem mem_collectNeighbors {pf : Pathfinding} {point q : Point}
    (h : q ∈ pf.collectNeighbors point) :
    ∃ d ∈ neighborOffsets, admissibleOffset pf point d q := by
  unfold collectNeighbors at h
  rcases foldl_collectStep_mem neighborOffsets [] q h with h1 | h1
  · exact absurd h1 (List.not_mem_nil q)
  · exact h1

theorem admissibleOffset_validStep {pf : Pathfinding} {point : Point}
    {d : Int × Int} {q : Point} (hd : d ∈ neighborOffsets)
    (h : admissibleOffset pf point d q)
    (hw : pf.isWalkable q.x q.y = true) :
    validStep pf point q := by
  obtain ⟨hq, hx0, hxw, hy0, hyh, hflank⟩ := h
  have hd1 : d.1 = -1 ∨ d.1 = 0 ∨ d.1 = 1 := by
    fin_cases hd <;> simp
  have hd2 : d.2 = -1 ∨ d.2 = 0 ∨ d.2 = 1 := by
    fin_cases hd <;> simp
  have hdne : ¬(d.1 = 0 ∧ d.2 = 0) := by
    fin_cases hd <;> simp
  subst hq
  refine ⟨?_, ?_, ?_, hw, ?_⟩
  · simp only
    have : point.x + d.1 - point.x = d.1 := by ring
    rw [this]
    omega
  · simp only
    have : point.y + d.2 - point.y = d.2 := by ring
    rw [this]
    omega
  · simp only
    intro hc
    exact hdne ⟨by omega, by omega⟩
  · simp only
    intro hc
    have h1 : d.1 ≠ 0 := by omega
    have h2 : d.2 ≠ 0 := by omega
    exact hflank ⟨h1, h2⟩

theorem collectNeighbors_of_frameEq {a b : Pathfinding} (h : FrameEq a b)
    (p : Point) : a.collectNeighbors p = b.collectNeighbors p := by
  unfold collectNeighbors
  have : collectStep a p = collectStep b p := by
    funext buf d
    unfold collectStep
    rw [h.1, h.2.1, isWalkable_of_frameEq h, isWalkable_of_frameEq h]
  rw [this]

theorem goodParents_congr {pf0 a b : Pathfinding} {g : Nat} {startIdx : Int}
    (hg : a.parentGen = b.parentGen) (hv : a.parentVal = b.parentVal) :
    goodParents pf0 a g startIdx ↔ goodParents pf0 b g startIdx := by
  unfold goodParents
  constructor
  · intro hgp i hi hne
    rw [← hasParent_congr hg] at hi
    rw [← getParent_congr hg hv]
    exact hgp i hi hne
  · intro hgp i hi hne
    rw [hasParent_congr hg] at hi
    rw [getParent_congr hg hv]
    exact hgp i hi hne

theorem setClosed_closedGen_length (pf : Pathfinding) (i : Int) (g : Nat) :
    (pf.setClosed i g).closedGen.length = pf.closedGen.length := by
  unfold setClosed
  split
  · dsimp only
    rw [List.length_set]
  · rfl

theorem expandNeighbor_closedGen (pf : Pathfinding) (g : Nat)
    (current : QueueNode) (endP q : Point) :
    (expandNeighbor pf g current endP q).closedGen = pf.closedGen := by
  unfold expandNeighbor
  split
  · rfl
  · dsimp only
    split
    · rfl
    · split
      · rfl
      · rw [pushOpenNode_closedGen, setParent_closedGen, setGCost_closedGen]

theorem foldExpand_closedGen {g : Nat} {current : QueueNode} {endP : Point} :
    ∀ (ns : List Point) (pf : Pathfinding),
    (ns.foldl (fun s n => expandNeighbor s g current endP n) pf).closedGen
      = pf.closedGen := by
  intro ns
  induction ns with
  | nil => intro pf; rfl
  | cons q rest ih =>
    intro pf
    rw [List.foldl_cons, ih, expandNeighbor_closedGen]

theorem expandNeighbor_preserves {pf0 pf : Pathfinding} {g : Nat}
    {startIdx : Int} (current : QueueNode) (endP : Point) {q : Point}
    (hframe : FrameEq pf pf0)
    (hsz : pf.parentVal.length = pf.parentGen.length)
    (hgp : goodParents pf0 pf g startIdx)
    (hvq : ∃ d ∈ neighborOffsets,
      admissibleOffset pf0 (pf0.toPoint current.index) d q) :
    FrameEq (expandNeighbor pf g current endP q) pf0 ∧
    (expandNeighbor pf g current endP q).parentVal.length =
      (expandNeighbor pf g current endP q).parentGen.length ∧
    goodParents pf0 (expandNeighbor pf g current endP q) g startIdx := by
  unfold expandNeighbor
  split
  · exact ⟨hframe, hsz, hgp⟩
  · next hwq =>
    dsimp only
    split
    · exact ⟨hframe, hsz, hgp⟩
    · split
      · exact ⟨hframe, hsz, hgp⟩
      · next hbetter =>
        have hwq' : pf.isWalkable q.x q.y = true := by
          by_contra hc
          exact hwq fun hc2 => hc hc2
        have hb := isWalkable_bounds hwq'
        set nIdx := pf.toIndex q with hnIdx
        set pf1 := pf.setGCost nIdx g (current.gCost + 1) with hpf1
        set pf2 := pf1.setParent nIdx g current.index with hpf2
        have hf1 : FrameEq pf1 pf := frameEq_setGCost pf nIdx g (current.gCost + 1)
        have hf2 : FrameEq pf2 pf1 := frameEq_setParent pf1 nIdx g current.index
        have hfOut : FrameEq (pf2.pushOpenNode
            ⟨nIdx, current.gCost + 1 + calculateHeuristic q endP, current.gCost + 1⟩) pf0 :=
          frameEq_trans (frameEq_pushOpenNode pf2 _)
            (frameEq_trans hf2 (frameEq_trans hf1 hframe))
        have hsz1 : pf1.parentVal.length = pf1.parentGen.length := by
          rw [hpf1, setGCost_parentGen, setGCost_parentVal]
          exact hsz
        have hsz2 : pf2.parentVal.length = pf2.parentGen.length := by
          rw [hpf2]
          unfold setParent
          split
          · dsimp only
            rw [List.length_set, List.length_set]
            exact hsz1
          · exact hsz1
        refine ⟨hfOut, ?_, ?_⟩
        · rw [pushOpenNode_parentGen, pushOpenNode_parentVal]
          exact hsz2
        · rw [goodParents_congr (pushOpenNode_parentGen pf2 _)
            (pushOpenNode_parentVal pf2 _)]
          rcases setParent_eq_or pf1 nIdx g current.index with hno | hguard
          · rw [hpf2, hno]
            rw [goodParents_congr (setGCost_parentGen pf nIdx g _)
              (setGCost_parentVal pf nIdx g _)]
            exact hgp
          · intro i hi hne
            by_cases hieq : i = nIdx
            · subst hieq
              have hv1 : nIdx.toNat < pf1.parentVal.length := by
                rw [hsz1]
                exact hguard.2
              rw [getParent_setParent_self hguard.1 hguard.2 hv1 g current.index]
              have hq0 : pf0.toPoint nIdx = q := by
                have hIdxEq : nIdx = pf0.toIndex q := by
                  rw [hnIdx, toIndex_of_frameEq hframe]
                rw [hIdxEq]
                have hw' : (pf.width : Int) = (pf0.width : Int) := by rw [hframe.1]
                exact toPoint_toIndex hb.1 (hw' ▸ hb.2.1) hb.2.2.1
              rw [hq0]
              obtain ⟨d, hd, ho⟩ := hvq
              exact admissibleOffset_validStep hd ho
                ((isWalkable_of_frameEq hframe q.x q.y) ▸ hwq')
            · rw [hasParent_setParent_ne hieq] at hi
              rw [getParent_setParent_ne hieq]
              rw [hasParent_congr (setGCost_parentGen pf nIdx g _)] at hi
              rw [getParent_congr (setGCost_parentGen pf nIdx g _)
                (setGCost_parentVal pf nIdx g _)]
              exact hgp i hi hne

theorem foldExpand_preserves {pf0 : Pathfinding} {g : Nat} {startIdx : Int}
    (current : QueueNode) (endP : Point) :
    ∀ (ns : List Point) (pf : Pathfinding),
    FrameEq pf pf0 → pf.parentVal.length = pf.parentGen.length →
    goodParents pf0 pf g startIdx →
    (∀ q ∈ ns, ∃ d ∈ neighborOffsets,
      admissibleOffset pf0 (pf0.toPoint current.index) d q) →
    FrameEq (ns.foldl (fun s n => expandNeighbor s g current endP n) pf) pf0 ∧
    (ns.foldl (fun s n => expandNeighbor s g current endP n) pf).parentVal.length =
      (ns.foldl (fun s n => expandNeighbor s g current endP n) pf).parentGen.length ∧
    goodParents pf0 (ns.foldl (fun s n => expandNeighbor s g current endP n) pf)
      g startIdx := by
  intro ns
  induction ns with
  | nil => intro pf hf hs hg _; exact ⟨hf, hs, hg⟩
  | cons q rest ih =>
    intro pf hf hs hg hq
    rw [List.foldl_cons]
    have hstep := expandNeighbor_preserves current endP hf hs hg
      (hq q (List.mem_cons_self q rest))
    exact ih _ hstep.1 hstep.2.1 hstep.2.2 fun r hr => hq r (List.mem_cons_of_mem q hr)

theorem searchStep_preserves {pf0 pf : Pathfinding} {g : Nat} {startIdx : Int}
    (endIdx : Int) (endP : Point) (it : Nat)
    (hf : FrameEq pf pf0)
    (hs : pf.parentVal.length = pf.parentGen.length)
    (hg : goodParents pf0 pf g startIdx) :
    FrameEq (stepState (searchStep g endIdx endP pf it)) pf0 ∧
    (stepState (searchStep g endIdx endP pf it)).parentVal.length =
      (stepState (searchStep g endIdx endP pf it)).parentGen.length ∧
    goodParents pf0 (stepState (searchStep g endIdx endP pf it)) g startIdx := by
  unfold searchStep
  dsimp only
  have hfP : FrameEq pf.popOpenNode.2 pf0 :=
    frameEq_trans (frameEq_popOpenNode pf) hf
  have hsP : pf.popOpenNode.2.parentVal.length = pf.popOpenNode.2.parentGen.length := by
    rw [popOpenNode_parentGen, popOpenNode_parentVal]
    exact hs
  have hgP : goodParents pf0 pf.popOpenNode.2 g startIdx :=
    (goodParents_congr (popOpenNode_parentGen pf) (popOpenNode_parentVal pf)).mpr hg
  split
  · exact ⟨hfP, hsP, hgP⟩
  · split
    · exact ⟨hfP, hsP, hgP⟩
    · set pfP := pf.popOpenNode.2 with hpfP
      set current := pf.popOpenNode.1 with hcur
      set pfC := pfP.setClosed current.index g with hpfC
      have hfC : FrameEq pfC pf0 :=
        frameEq_trans (frameEq_setClosed pfP current.index g) hfP
      have hsC : pfC.parentVal.length = pfC.parentGen.length := by
        rw [hpfC, setClosed_parentGen, setClosed_parentVal]
        exact hsP
      have hgC : goodParents pf0 pfC g startIdx :=
        (goodParents_congr (setClosed_parentGen pfP current.index g)
          (setClosed_parentVal pfP current.index g)).mpr hgP
      split
      · exact ⟨hfC, hsC, hgC⟩
      · have hns : pfC.collectNeighbors (pfC.toPoint current.index) =
            pf0.collectNeighbors (pf0.toPoint current.index) := by
          rw [collectNeighbors_of_frameEq hfC, toPoint_of_frameEq hfC]
        have hfold := foldExpand_preserves current endP
          (pfC.collectNeighbors (pfC.toPoint current.index)) pfC hfC hsC hgC
          (by
            intro q hq
            rw [hns] at hq
            exact mem_collectNeighbors hq)
        exact ⟨hfold.1, hfold.2.1, hfold.2.2⟩

theorem frameEq_expandNeighbor (pf : Pathfinding) (g : Nat) (current : QueueNode)
    (endP q : Point) : FrameEq (expandNeighbor pf g current endP q) pf := by
  unfold expandNeighbor
  split
  · exact frameEq_refl pf
  · dsimp only
    split
    · exact frameEq_refl pf
    · split
      · exact frameEq_refl pf
      · exact frameEq_trans (frameEq_pushOpenNode _ _)
          (frameEq_trans (frameEq_setParent _ _ _ _) (frameEq_setGCost _ _ _ _))

theorem foldExpand_frame {pf0 : Pathfinding} {g : Nat} {current : QueueNode}
    {endP : Point} :
    ∀ (ns : List Point) (pf : Pathfinding), FrameEq pf pf0 →
    FrameEq (ns.foldl (fun s n => expandNeighbor s g current endP n) pf) pf0 := by
  intro ns
  induction ns with
  | nil => intro pf hf; exact hf
  | cons q rest ih =>
    intro pf hf
    rw [List.foldl_cons]
    exact ih _ (frameEq_trans (frameEq_expandNeighbor pf g current endP q) hf)

theorem searchStep_frame (g : Nat) (endIdx : Int) (endP : Point)
    (pf : Pathfinding) (it : Nat) :
    FrameEq (stepState (searchStep g endIdx endP pf it)) pf ∧
    (stepState (searchStep g endIdx endP pf it)).closedGen.length =
      pf.closedGen.length ∧
    stepIter (searchStep g endIdx endP pf it) = it := by
  unfold searchStep
  dsimp only
  have hfP : FrameEq pf.popOpenNode.2 pf := frameEq_popOpenNode pf
  have hlP : pf.popOpenNode.2.closedGen.length = pf.closedGen.length := by
    rw [popOpenNode_closedGen]
  split
  · exact ⟨hfP, hlP, rfl⟩
  · split
    · exact ⟨hfP, hlP, rfl⟩
    · set pfP := pf.popOpenNode.2 with hpfP
      set current := pf.popOpenNode.1 with hcur
      set pfC := pfP.setClosed current.index g with hpfC
      have hfC : FrameEq pfC pf :=
        frameEq_trans (frameEq_setClosed pfP current.index g) hfP
      have hlC : pfC.closedGen.length = pf.closedGen.length := by
        rw [hpfC, setClosed_closedGen_length]
        exact hlP
      split
      · exact ⟨hfC, hlC, rfl⟩
      · dsimp only [stepState, stepIter]
        refine ⟨foldExpand_frame _ _ hfC, ?_, rfl⟩
        rw [foldExpand_closedGen]
        exact hlC

theorem isClosed_setClosed_self {pf : Pathfinding} {idx : Int}
    (h0 : 0 ≤ idx) (h1 : idx.toNat < pf.closedGen.length) (g : Nat) :
    (pf.setClosed idx g).isClosed idx g = true := by
  rw [isClosed_eq_true_iff]
  unfold setClosed
  rw [if_pos ⟨h0, h1⟩]
  dsimp only
  refine ⟨h0, ?_, getD_set_self h1⟩
  rw [List.length_set]
  exact h1

theorem searchStep_done_closed {g : Nat} {endIdx : Int} {endP : Point}
    {pf : Pathfinding} {it : Nat} (hr0 : 0 ≤ endIdx)
    (hr1 : endIdx.toNat < pf.closedGen.length) :
    ∀ r pf2 it2, searchStep g endIdx endP pf it = StepResult.done r pf2 it2 →
    pf2.isClosed endIdx g = true := by
  intro r pf2 it2 heq
  unfold searchStep at heq
  dsimp only at heq
  split at heq
  · exact StepResult.noConfusion heq
  · split at heq
    · exact StepResult.noConfusion heq
    · split at heq
      · next hend =>
        have hpf2 : (pf.popOpenNode.2.setClosed pf.popOpenNode.1.index g) = pf2 := by
          injection heq
        rw [← hpf2, hend]
        have hl : endIdx.toNat < pf.popOpenNode.2.closedGen.length := by
          rw [popOpenNode_closedGen]
          exact hr1
        exact isClosed_setClosed_self hr0 hl g
      · exact StepResult.noConfusion heq

theorem searchLoop_preserves {pf0 : Pathfinding} {g : Nat} {endIdx : Int}
    {endP : Point} {maxIter : Nat} {startIdx : Int} :
    ∀ (fuel : Nat) (pf : Pathfinding) (iterations : Nat) (finalCost : Int),
    FrameEq pf pf0 → pf.parentVal.length = pf.parentGen.length →
    goodParents pf0 pf g startIdx →
    FrameEq (searchLoop g endIdx endP maxIter fuel pf iterations finalCost).2.1 pf0 ∧
    goodParents pf0
      (searchLoop g endIdx endP maxIter fuel pf iterations finalCost).2.1 g startIdx := by
  intro fuel
  induction fuel with
  | zero =>
    intro pf it fc hf hs hg
    rw [searchLoop]
    exact ⟨hf, hg⟩
  | succ fuel ih =>
    intro pf it fc hf hs hg
    rw [searchLoop]
    split
    · exact ⟨hf, hg⟩
    · rcases hstep : searchStep g endIdx endP pf (it + 1) with ⟨r, pf2, it2⟩ | ⟨pf2, it2⟩
      · have hsp := searchStep_preserves endIdx endP (it + 1) hf hs hg
        rw [hstep] at hsp
        exact ⟨hsp.1, hsp.2.2⟩
      · have hsp := searchStep_preserves endIdx endP (it + 1) hf hs hg
        rw [hstep] at hsp
        exact ih pf2 it2 fc hsp.1 hsp.2.1 hsp.2.2

theorem searchLoop_frame {pf0 : Pathfinding} {g : Nat} {endIdx : Int}
    {endP : Point} {maxIter : Nat} :
    ∀ (fuel : Nat) (pf : Pathfinding) (iterations : Nat) (finalCost : Int),
    FrameEq pf pf0 →
    FrameEq (searchLoop g endIdx endP maxIter fuel pf iterations finalCost).2.1 pf0 := by
  intro fuel
  induction fuel with
  | zero =>
    intro pf it fc hf
    rw [searchLoop]
    exact hf
  | succ fuel ih =>
    intro pf it fc hf
    rw [searchLoop]
    split
    · exact hf
    · rcases hstep : searchStep g endIdx endP pf (it + 1) with ⟨r, pf2, it2⟩ | ⟨pf2, it2⟩
      · have hsp := searchStep_frame g endIdx endP pf (it + 1)
        rw [hstep] at hsp
        exact frameEq_trans hsp.1 hf
      · have hsp := searchStep_frame g endIdx endP pf (it + 1)
        rw [hstep] at hsp
        exact ih pf2 it2 fc (frameEq_trans hsp.1 hf)

theorem searchLoop_iterations_le {g : Nat} {endIdx : Int} {endP : Point}
    {maxIter : Nat} :
    ∀ (fuel : Nat) (pf : Pathfinding) (iterations : Nat) (finalCost : Int),
    iterations ≤ maxIter →
    (searchLoop g endIdx endP maxIter fuel pf iterations finalCost).2.2 ≤ maxIter := by
  intro fuel
  induction fuel with
  | zero =>
    intro pf it fc hle
    rw [searchLoop]
    exact hle
  | succ fuel ih =>
    intro pf it fc hle
    rw [searchLoop]
    split
    · exact hle
    · next hcond =>
      have hlt : it < maxIter := by
        by_contra hc
        exact hcond (Or.inr hc)
      rcases hstep : searchStep g endIdx endP pf (it + 1) with ⟨r, pf2, it2⟩ | ⟨pf2, it2⟩
      · have hsp := searchStep_frame g endIdx endP pf (it + 1)
        rw [hstep] at hsp
        have hit2 : it2 = it + 1 := hsp.2.2
        show it2 ≤ maxIter
        omega
      · have hsp := searchStep_frame g endIdx endP pf (it + 1)
        rw [hstep] at hsp
        have hit2 : it2 = it + 1 := hsp.2.2
        show (searchLoop g endIdx endP maxIter fuel pf2 it2 fc).2.2 ≤ maxIter
        exact ih pf2 it2 fc (by omega)

theorem searchLoop_final_closed {g : Nat} {endIdx : Int} {endP : Point}
    {maxIter : Nat} (hr0 : 0 ≤ endIdx) :
    ∀ (fuel : Nat) (pf : Pathfinding) (iterations : Nat),
    endIdx.toNat < pf.closedGen.length →
    0 ≤ (searchLoop g endIdx endP maxIter fuel pf iterations (-1)).1 →
    (searchLoop g endIdx endP maxIter fuel pf iterations (-1)).2.1.isClosed endIdx g
      = true := by
  intro fuel
  induction fuel with
  | zero =>
    intro pf it hlen hpos
    rw [searchLoop] at hpos
    exact absurd hpos (by omega)
  | succ fuel ih =>
    intro pf it hlen hpos
    rw [searchLoop] at hpos ⊢
    split at hpos
    · exact absurd hpos (by omega)
    · next hcond =>
      rw [if_neg hcond]
      rcases hstep : searchStep g endIdx endP pf (it + 1) with ⟨r, pf2, it2⟩ | ⟨pf2, it2⟩
      · exact searchStep_done_closed hr0 hlen _ pf2 it2 hstep
      · have hsp := searchStep_frame g endIdx endP pf (it + 1)
        rw [hstep] at hsp
        have hlen2 : endIdx.toNat < pf2.closedGen.length := by
          have h4 : pf2.closedGen.length = pf.closedGen.length := hsp.2.1
          omega
        rw [hstep] at hpos
        exact ih pf2 it2 hlen2 hpos

theorem buildPathLoop_spec {pf0 pf : Pathfinding} {g : Nat} {startIdx : Int}
    (hframe : FrameEq pf pf0) (hgp : goodParents pf0 pf g startIdx) :
    ∀ (fuel : Nat) (current : Int) (out res : List Point),
    buildPathLoop pf g startIdx fuel current out = res → res ≠ [] →
    ∃ mid : List Point,
      res.reverse = out ++ (pf0.toPoint current :: mid) ∧
      (out ++ (pf0.toPoint current :: mid)).getLast? = some (pf0.toPoint startIdx) ∧
      List.Chain' (fun a b => validStep pf0 b a) (pf0.toPoint current :: mid) := by
  intro fuel
  induction fuel with
  | zero =>
    intro current out res h hne
    rw [buildPathLoop] at h
    exact absurd h.symm hne
  | succ fuel ih =>
    intro current out res h hne
    rw [buildPathLoop] at h
    split at h
    · exact absurd h.symm hne
    · dsimp only at h
      split at h
      · next hstart =>
        refine ⟨[], ?_, ?_, List.chain'_singleton _⟩
        · rw [← h, List.reverse_reverse, toPoint_of_frameEq hframe]
        · rw [List.getLast?_concat, hstart]
      · next hstart =>
        split at h
        · exact absurd h.symm hne
        · next hhas =>
          split at h
          · exact absurd h.symm hne
          · next hpar =>
            have hhas' : pf.hasParent current g = true := by
              by_contra hc
              exact hhas fun hc2 => hc hc2
            obtain ⟨mid, h1, h2, h3⟩ :=
              ih (pf.getParent current g) (out ++ [pf.toPoint current]) res h hne
            refine ⟨pf0.toPoint (pf.getParent current g) :: mid, ?_, ?_, ?_⟩
            · rw [h1, toPoint_of_frameEq hframe, List.append_assoc]
              rfl
            · rw [← h2, toPoint_of_frameEq hframe, List.append_assoc]
              rfl
            · rw [List.chain'_cons]
              exact ⟨hgp current hhas' hstart, h3⟩

theorem frameEq_ensureWorkingBuffers (pf : Pathfinding) :
    FrameEq pf.ensureWorkingBuffers pf := by
  unfold ensureWorkingBuffers
  dsimp only
  split
  · exact ⟨rfl, rfl, rfl, rfl, rfl, rfl, rfl, rfl⟩
  · exact frameEq_refl pf

theorem ensure_generationCounter (pf : Pathfinding) :
    pf.ensureWorkingBuffers.generationCounter = pf.generationCounter := by
  unfold ensureWorkingBuffers
  dsimp only
  split <;> rfl

theorem getD_replicate_zero (n k : Nat) :
    (List.replicate n (0 : Nat)).getD k 0 = 0 := by
  rcases Nat.lt_or_ge k n with h | h
  · rw [List.getD_eq_getElem?_getD, List.getElem?_eq_getElem (by simpa using h)]
    simp [List.getElem_replicate]
  · rw [List.getD_eq_getElem?_getD, List.getElem?_eq_none (by simpa using h)]
    rfl

theorem ensure_parentGen_le {pf : Pathfinding}
    (hp : ∀ k, pf.parentGen.getD k 0 ≤ pf.generationCounter) :
    ∀ k, pf.ensureWorkingBuffers.parentGen.getD k 0 ≤
      pf.ensureWorkingBuffers.generationCounter := by
  intro k
  unfold ensureWorkingBuffers
  dsimp only
  split
  · dsimp only
    rw [getD_replicate_zero]
    exact Nat.zero_le _
  · exact hp k

theorem ensure_parentVal_parentGen {pf : Pathfinding}
    (hs : pf.parentVal.length = pf.parentGen.length) :
    pf.ensureWorkingBuffers.parentVal.length =
      pf.ensureWorkingBuffers.parentGen.length := by
  unfold ensureWorkingBuffers
  dsimp only
  split
  · dsimp only
    rw [List.length_replicate, List.length_replicate]
  · exact hs

theorem ensure_closedGen_length (pf : Pathfinding) :
    pf.ensureWorkingBuffers.closedGen.length = pf.width * pf.height := by
  unfold ensureWorkingBuffers
  dsimp only
  split
  · dsimp only
    rw [List.length_replicate]
  · next h => omega

theorem nextGeneration_lens (pf : Pathfinding) :
    pf.nextGeneration.2.parentVal.length = pf.parentVal.length ∧
    pf.nextGeneration.2.parentGen.length = pf.parentGen.length ∧
    pf.nextGeneration.2.closedGen.length = pf.closedGen.length := by
  unfold nextGeneration
  dsimp only
  split
  · dsimp only [resetGenerations]
    refine ⟨?_, ?_, ?_⟩ <;> rw [List.length_map]
  · exact ⟨rfl, rfl, rfl⟩

theorem findPathInternal_valid {pf : Pathfinding} {s e : Point}
    (hc : pf.generationCounter < uint32Mod)
    (hp : ∀ k, pf.parentGen.getD k 0 ≤ pf.generationCounter)
    (hsz : pf.parentVal.length = pf.parentGen.length) :
    (pf.findPathInternal s e).1 ≠ [] →
    (pf.findPathInternal s e).1.head? = some s ∧
    (pf.findPathInternal s e).1.getLast? = some e ∧
    List.Chain' (validStep pf) (pf.findPathInternal s e).1 := by
  intro hne
  set pfE := pf.ensureWorkingBuffers with hpfE
  have hfe : FrameEq pfE pf := frameEq_ensureWorkingBuffers pf
  have hcE : pfE.generationCounter < uint32Mod := by
    rw [hpfE, ensure_generationCounter]
    exact hc
  have hpE : ∀ k, pfE.parentGen.getD k 0 ≤ pfE.generationCounter := by
    rw [hpfE]
    exact ensure_parentGen_le hp
  have hszE : pfE.parentVal.length = pfE.parentGen.length := by
    rw [hpfE]
    exact ensure_parentVal_parentGen hsz
  by_cases hw : pfE.isWalkable s.x s.y = true ∧ pfE.isWalkable e.x e.y = true
  case neg =>
    have hz : (pf.findPathInternal s e).1 = [] := by
      unfold findPathInternal findPathInternalStats
      dsimp only
      rw [← hpfE]
      rw [if_pos hw]
    exact absurd hz hne
  case pos =>
    have hsB := isWalkable_bounds hw.1
    have heB := isWalkable_bounds hw.2
    by_cases hidx : pfE.toIndex s = pfE.toIndex e
    case pos =>
      have hse : s = e := by
        have h1 : pfE.toPoint (pfE.toIndex s) = s := toPoint_toIndex hsB.1 hsB.2.1 hsB.2.2.1
        have h2 : pfE.toPoint (pfE.toIndex e) = e := toPoint_toIndex heB.1 heB.2.1 heB.2.2.1
        rw [← h1, ← h2, hidx]
      have hstats1 : (pf.findPathInternal s e).1 = [s] := by
        unfold findPathInternal findPathInternalStats
        dsimp only
        rw [← hpfE]
        rw [if_neg (not_not_intro hw), if_pos hidx]
      rw [hstats1]
      refine ⟨rfl, ?_, ?_⟩
      · rw [← hse]
        rfl
      · exact List.chain'_singleton s
    case neg =>
      set startIdx := pfE.toIndex s with hsI
      set endIdx := pfE.toIndex e with heI
      set g := pfE.nextGeneration.1 with hg
      set pfH := { pfE.nextGeneration.2 with openHeap := ([] : List QueueNode) } with hpfH
      set pf1 := pfH.setGCost startIdx g 0 with hpf1
      set pf2 := pf1.setParent startIdx g startIdx with hpf2
      set pf3 := pf2.pushOpenNode ⟨startIdx, calculateHeuristic s e, 0⟩ with hpf3
      set maxIter := max (pf3.width * pf3.height) 1 with hmI
      set res := searchLoop g endIdx e maxIter maxIter pf3 0 (-1) with hres
      have hpath : (pf.findPathInternal s e).1 =
          if res.1 < 0 then [] else res.2.1.buildPath startIdx endIdx g := by
        unfold findPathInternal findPathInternalStats
        dsimp only
        rw [← hpfE]
        rw [if_neg (not_not_intro hw), if_neg hidx]
        by_cases hfc : res.1 < 0
        · rw [if_pos hfc, if_pos hfc]
        · rw [if_neg hfc, if_neg hfc]
      have hframeH : FrameEq pfH pfE :=
        frameEq_trans ⟨rfl, rfl, rfl, rfl, rfl, rfl, rfl, rfl⟩ (frameEq_nextGeneration pfE)
      have hframe3 : FrameEq pf3 pfE :=
        frameEq_trans (frameEq_pushOpenNode pf2 _)
          (frameEq_trans (frameEq_setParent pf1 startIdx g startIdx)
            (frameEq_trans (frameEq_setGCost pfH startIdx g 0) hframeH))
      have hfresh : ∀ i : Int, pfE.nextGeneration.2.hasParent i g = false :=
        fun i => nextGeneration_hasParent_false hcE hpE i
      have hszH : pfH.parentVal.length = pfH.parentGen.length := by
        have h1 : pfH.parentVal = pfE.nextGeneration.2.parentVal := rfl
        have h2 : pfH.parentGen = pfE.nextGeneration.2.parentGen := rfl
        rw [h1, h2, (nextGeneration_lens pfE).1, (nextGeneration_lens pfE).2.1]
        exact hszE
      have hsz3 : pf3.parentVal.length = pf3.parentGen.length := by
        rw [hpf3, pushOpenNode_parentGen, pushOpenNode_parentVal, hpf2]
        unfold setParent
        split
        · dsimp only
          rw [List.length_set, List.length_set, hpf1, setGCost_parentGen,
            setGCost_parentVal]
          exact hszH
        · rw [hpf1, setGCost_parentGen, setGCost_parentVal]
          exact hszH
      have hgp3 : goodParents pfE pf3 g startIdx := by
        rw [goodParents_congr (pushOpenNode_parentGen pf2 _) (pushOpenNode_parentVal pf2 _)]
        intro i hi hne2
        rw [hasParent_setParent_ne hne2] at hi
        rw [hasParent_congr (setGCost_parentGen pfH startIdx g 0)] at hi
        have hHN : pfH.hasParent i g = pfE.nextGeneration.2.hasParent i g := rfl
        rw [hHN, hfresh i] at hi
        exact absurd hi (by simp)
      have hloop : FrameEq res.2.1 pfE ∧ goodParents pfE res.2.1 g startIdx := by
        rw [hres]
        exact searchLoop_preserves maxIter pf3 0 (-1) hframe3 hsz3 hgp3
      rcases lt_or_ge res.1 0 with hfc | hfc
      · rw [hpath, if_pos hfc] at hne
        exact absurd rfl hne
      · have hbe : (pf.findPathInternal s e).1 = res.2.1.buildPath startIdx endIdx g := by
          rw [hpath, if_neg (not_lt.mpr hfc)]
        rw [hbe] at hne ⊢
        obtain ⟨mid, h1, h2, h3⟩ :=
          buildPathLoop_spec hloop.1 hloop.2 (res.2.1.totalCells + 1) endIdx []
            (res.2.1.buildPath startIdx endIdx g) rfl hne
        rw [List.nil_append] at h1 h2
        have hts : pfE.toPoint startIdx = s := toPoint_toIndex hsB.1 hsB.2.1 hsB.2.2.1
        have hte : pfE.toPoint endIdx = e := toPoint_toIndex heB.1 heB.2.1 heB.2.2.1
        have hpathrev : res.2.1.buildPath startIdx endIdx g =
            (pfE.toPoint endIdx :: mid).reverse := by
          have hrr := congrArg List.reverse h1
          rwa [List.reverse_reverse] at hrr
        refine ⟨?_, ?_, ?_⟩
        · rw [hpathrev, List.head?_reverse, h2, hts]
        · rw [hpathrev, List.getLast?_reverse]
          rw [List.head?_cons, hte]
        · rw [hpathrev]
          refine List.Chain'.imp ?_ (List.chain'_reverse.mpr h3)
          intro a b hab
          exact (validStep_of_frameEq hfe a b).mp hab

theorem chain_validStep_walkable {pf : Pathfinding} :
    ∀ (l : List Point), List.Chain' (validStep pf) l →
    (∀ a, l.head? = some a → pf.isWalkable a.x a.y = true) →
    ∀ p ∈ l, pf.isWalkable p.x p.y = true := by
  intro l
  induction l with
  | nil => intro _ _ p hp; exact absurd hp (List.not_mem_nil p)
  | cons a rest ih =>
    intro hchain hhead p hp
    rcases List.mem_cons.mp hp with hpa | hpr
    · subst hpa
      exact hhead p rfl
    · cases rest with
      | nil => exact absurd hpr (List.not_mem_nil p)
      | cons b rest2 =>
        rw [List.chain'_cons] at hchain
        refine ih hchain.2 ?_ p hpr
        intro c hcar
        rw [List.head?_cons, Option.some.injEq] at hcar
        rw [← hcar]
        exact hchain.1.2.2.2.1

theorem findPathInternal_frameEq (pf : Pathfinding) (s e : Point) :
    FrameEq (pf.findPathInternal s e).2 pf := by
  set pfE := pf.ensureWorkingBuffers with hpfE
  have hfe : FrameEq pfE pf := frameEq_ensureWorkingBuffers pf
  by_cases hw : pfE.isWalkable s.x s.y = true ∧ pfE.isWalkable e.x e.y = true
  case neg =>
    have hz : (pf.findPathInternal s e).2 = pfE := by
      unfold findPathInternal findPathInternalStats
      dsimp only
      rw [← hpfE]
      rw [if_pos hw]
    rw [hz]
    exact hfe
  case pos =>
    by_cases hidx : pfE.toIndex s = pfE.toIndex e
    case pos =>
      have hz : (pf.findPathInternal s e).2 = pfE := by
        unfold findPathInternal findPathInternalStats
        dsimp only
        rw [← hpfE]
        rw [if_neg (not_not_intro hw), if_pos hidx]
      rw [hz]
      exact hfe
    case neg =>
      set startIdx := pfE.toIndex s with hsI
      set endIdx := pfE.toIndex e with heI
      set g := pfE.nextGeneration.1 with hg
      set pfH := { pfE.nextGeneration.2 with openHeap := ([] : List QueueNode) } with hpfH
      set pf1 := pfH.setGCost startIdx g 0 with hpf1
      set pf2 := pf1.setParent startIdx g startIdx with hpf2
      set pf3 := pf2.pushOpenNode ⟨startIdx, calculateHeuristic s e, 0⟩ with hpf3
      set maxIter := max (pf3.width * pf3.height) 1 with hmI
      set res := searchLoop g endIdx e maxIter maxIter pf3 0 (-1) with hres
      have hz : (pf.findPathInternal s e).2 = res.2.1 := by
        unfold findPathInternal findPathInternalStats
        dsimp only
        rw [← hpfE]
        rw [if_neg (not_not_intro hw), if_neg hidx]
        by_cases hfc : res.1 < 0
        · rw [if_pos hfc]
        · rw [if_neg hfc]
      have hframeH : FrameEq pfH pfE :=
        frameEq_trans ⟨rfl, rfl, rfl, rfl, rfl, rfl, rfl, rfl⟩ (frameEq_nextGeneration pfE)
      have hframe3 : FrameEq pf3 pf :=
        frameEq_trans (frameEq_pushOpenNode pf2 _)
          (frameEq_trans (frameEq_setParent pf1 startIdx g startIdx)
            (frameEq_trans (frameEq_setGCost pfH startIdx g 0)
              (frameEq_trans hframeH hfe)))
      rw [hz]
      rw [hres]
      exact searchLoop_frame maxIter pf3 0 (-1) hframe3

theorem findPathInternalStats_budget (pf : Pathfinding) (s e : Point) :
    (pf.findPathInternalStats s e).2.2.1 ≤ pf.width * pf.height ∧
    (pf.toIndex s ≠ pf.toIndex e →
      ¬((pf.findPathInternalStats s e).2.1.isClosed (pf.toIndex e)
          (pf.findPathInternalStats s e).2.2.2.1 = true) →
      (pf.findPathInternalStats s e).1 = []) := by
  set pfE := pf.ensureWorkingBuffers with hpfE
  have hfe : FrameEq pfE pf := frameEq_ensureWorkingBuffers pf
  by_cases hw : pfE.isWalkable s.x s.y = true ∧ pfE.isWalkable e.x e.y = true
  case neg =>
    have hz : pf.findPathInternalStats s e = ([], pfE, 0, 0, -1) := by
      unfold findPathInternalStats
      dsimp only
      rw [← hpfE]
      rw [if_pos hw]
    rw [hz]
    exact ⟨Nat.zero_le _, fun _ _ => rfl⟩
  case pos =>
    have hsB := isWalkable_bounds hw.1
    have heB := isWalkable_bounds hw.2
    by_cases hidx : pfE.toIndex s = pfE.toIndex e
    case pos =>
      have hz : pf.findPathInternalStats s e = ([s], pfE, 0, 0, 0) := by
        unfold findPathInternalStats
        dsimp only
        rw [← hpfE]
        rw [if_neg (not_not_intro hw), if_pos hidx]
      rw [hz]
      refine ⟨Nat.zero_le _, fun hne _ => ?_⟩
      rw [toIndex_of_frameEq hfe s, toIndex_of_frameEq hfe e] at hidx
      exact absurd hidx hne
    case neg =>
      set startIdx := pfE.toIndex s with hsI
      set endIdx := pfE.toIndex e with heI
      set g := pfE.nextGeneration.1 with hg
      set pfH := { pfE.nextGeneration.2 with openHeap := ([] : List QueueNode) } with hpfH
      set pf1 := pfH.setGCost startIdx g 0 with hpf1
      set pf2 := pf1.setParent startIdx g startIdx with hpf2
      set pf3 := pf2.pushOpenNode ⟨startIdx, calculateHeuristic s e, 0⟩ with hpf3
      set maxIter := max (pf3.width * pf3.height) 1 with hmI
      set res := searchLoop g endIdx e maxIter maxIter pf3 0 (-1) with hres
      have hstats : pf.findPathInternalStats s e =
          if res.1 < 0 then ([], res.2.1, res.2.2, g, res.1)
          else (res.2.1.buildPath startIdx endIdx g, res.2.1, res.2.2, g, res.1) := by
        unfold findPathInternalStats
        dsimp only
        rw [← hpfE]
        rw [if_neg (not_not_intro hw), if_neg hidx]
      have hframeH : FrameEq pfH pfE :=
        frameEq_trans ⟨rfl, rfl, rfl, rfl, rfl, rfl, rfl, rfl⟩ (frameEq_nextGeneration pfE)
      have hframe3 : FrameEq pf3 pfE :=
        frameEq_trans (frameEq_pushOpenNode pf2 _)
          (frameEq_trans (frameEq_setParent pf1 startIdx g startIdx)
            (frameEq_trans (frameEq_setGCost pfH startIdx g 0) hframeH))
      have hw0 : 0 < pf.width := by
        have h1 : (0 : Int) < (pfE.width : Int) := lt_of_le_of_lt hsB.1 hsB.2.1
        rw [hfe.1] at h1
        exact_mod_cast h1
      have hh0 : 0 < pf.height := by
        have h2 : (0 : Int) < (pfE.height : Int) := lt_of_le_of_lt hsB.2.2.1 hsB.2.2.2
        rw [hfe.2.1] at h2
        exact_mod_cast h2
      have hwh : 0 < pf.width * pf.height := Nat.mul_pos hw0 hh0
      have hmaxeq : maxIter = pf.width * pf.height := by
        have h1 : pf3.width = pf.width := by rw [hframe3.1, hfe.1]
        have h2 : pf3.height = pf.height := by rw [hframe3.2.1, hfe.2.1]
        rw [hmI, h1, h2]
        omega
      constructor
      · have hiter : res.2.2 ≤ maxIter := by
          rw [hres]
          exact searchLoop_iterations_le maxIter pf3 0 (-1) (Nat.zero_le maxIter)
        have hit : (pf.findPathInternalStats s e).2.2.1 = res.2.2 := by
          rw [hstats]
          by_cases hfc : res.1 < 0
          · rw [if_pos hfc]
          · rw [if_neg hfc]
        rw [hit, ← hmaxeq]
        exact hiter
      · intro _ hnc
        by_cases hfc : res.1 < 0
        · rw [hstats, if_pos hfc]
        · exfalso
          apply hnc
          have hgen : (pf.findPathInternalStats s e).2.2.2.1 = g := by
            rw [hstats, if_neg hfc]
          have hst : (pf.findPathInternalStats s e).2.1 = res.2.1 := by
            rw [hstats, if_neg hfc]
          rw [hgen, hst, ← toIndex_of_frameEq hfe e]
          have hend := toIndex_range heB.1 heB.2.1 heB.2.2.1 heB.2.2.2
          have hclen : pf3.closedGen.length = pf.width * pf.height := by
            rw [hpf3, pushOpenNode_closedGen, hpf2, setParent_closedGen, hpf1,
              setGCost_closedGen]
            have h1 : pfH.closedGen = pfE.nextGeneration.2.closedGen := rfl
            rw [h1, (nextGeneration_lens pfE).2.2, hpfE, ensure_closedGen_length]
          have hlenEnd : endIdx.toNat < pf3.closedGen.length := by
            rw [hclen]
            have h5 : pfE.totalCells = pf.width * pf.height := by
              rw [totalCells_of_frameEq hfe]
              rfl
            rw [← h5]
            exact hend.2
          rw [hres]
          exact searchLoop_final_closed hend.1 maxIter pf3 0 hlenEnd
            (by rw [← hres]; omega)

theorem fetchLoop_spec (q acc : List PathResult) :
    fetchLoop acc q = (acc ++ q, []) := by
  induction q generalizing acc with
  | nil => simp [fetchLoop]
  | cons r rest ih =>
    rw [fetchLoop, ih]
    simp

theorem gridDims_clearedGrid (pf : Pathfinding) :
    gridDims (clearedGrid pf) pf.width pf.height := by
  unfold clearedGrid gridDims
  constructor
  · exact List.length_replicate _ _
  · intro row hrow
    rw [List.eq_of_mem_replicate hrow]
    exact List.length_replicate _ _

theorem gridDims_terrainPass (pf : Pathfinding) (t : TerrainSource) :
    gridDims (terrainPass pf t) pf.width pf.height := by
  unfold terrainPass gridDims
  constructor
  · simp
  · intro row hrow
    rw [List.mem_map] at hrow
    obtain ⟨z, _, hz⟩ := hrow
    rw [← hz]
    simp

theorem gridBlockedAt_terrainPass (pf : Pathfinding) (t : TerrainSource)
    {x y : Nat} (hx : x < pf.width) (hy : y < pf.height) :
    gridBlockedAt (terrainPass pf t) x y =
      if (x : Int) < t.width ∧ (y : Int) < t.height then !(t.walkable x y)
      else true := by
  unfold gridBlockedAt terrainPass
  rw [show ((List.range pf.height).map fun (z : Nat) =>
      (List.range pf.width).map fun (x : Nat) =>
        if (x : Int) < t.width ∧ (z : Int) < t.height then
          !(t.walkable (x : Int) (z : Int))
        else true).getD y [] =
      ((List.range pf.width).map fun (x : Nat) =>
        if (x : Int) < t.width ∧ (y : Int) < t.height then
          !(t.walkable (x : Int) (y : Int))
        else true) from by
    simp [List.getD_eq_getElem?_getD, List.getElem?_map, List.getElem?_range hy]]
  simp [List.getD_eq_getElem?_getD, List.getElem?_map, List.getElem?_range hx]

theorem gridBlockedAt_clearedGrid (pf : Pathfinding) (x y : Nat) :
    gridBlockedAt (clearedGrid pf) x y = false := by
  unfold gridBlockedAt clearedGrid
  rcases Nat.lt_or_ge y pf.height with hy | hy
  · rw [show (List.replicate pf.height (List.replicate pf.width false)).getD y [] =
        List.replicate pf.width false from by
      simp [List.getD_eq_getElem?_getD, List.getElem?_replicate, hy]]
    rcases Nat.lt_or_ge x pf.width with hx | hx
    · simp [List.getD_eq_getElem?_getD, List.getElem?_replicate, hx]
    · simp [List.getD_eq_getElem?_getD, List.getElem?_replicate, Nat.not_lt.mpr hx]
  · rw [show (List.replicate pf.height (List.replicate pf.width false)).getD y [] =
        ([] : List Bool) from by
      simp [List.getD_eq_getElem?_getD, List.getElem?_replicate, Nat.not_lt.mpr hy]]
    rfl

theorem setBuildingCell_spec (pf : Pathfinding) {grid : List (List Bool)}
    (hd : gridDims grid pf.width pf.height) {x y : Nat} (hx : x < pf.width)
    (hy : y < pf.height) (cell : ℚ × ℚ) :
    gridDims (setBuildingCell pf grid cell) pf.width pf.height ∧
    (gridBlockedAt (setBuildingCell pf grid cell) x y = true ↔
      gridBlockedAt grid x y = true ∨
      (cround (cell.1 - pf.gridOffsetX) = (x : Int) ∧
       cround (cell.2 - pf.gridOffsetZ) = (y : Int))) := by
  unfold setBuildingCell
  dsimp only
  split
  · next hguard =>
    have hdl := hd.1
    set gX := cround (cell.1 - pf.gridOffsetX) with hgX
    set gZ := cround (cell.2 - pf.gridOffsetZ) with hgZ
    have hrowlen : (grid.getD gZ.toNat []).length = pf.width := by
      have hmem : grid.getD gZ.toNat [] ∈ grid := by
        have hlt : gZ.toNat < grid.length := by omega
        rw [List.getD_eq_getElem?_getD, List.getElem?_eq_getElem hlt]
        exact List.getElem_mem hlt
      exact hd.2 _ hmem
    constructor
    · constructor
      · rw [List.length_set]
        exact hd.1
      · intro row hrow
        rcases List.mem_or_eq_of_mem_set hrow with hmem | heq
        · exact hd.2 row hmem
        · rw [heq, List.length_set]
          exact hrowlen
    · by_cases hzy : gZ.toNat = y
      · unfold gridBlockedAt
        rw [hzy] at hrowlen
        have hylen : y < grid.length := by omega
        rw [hzy, getD_set_self hylen]
        by_cases hxx : gX.toNat = x
        · have hxlen : x < (grid.getD y []).length := by omega
          rw [hxx, getD_set_self hxlen]
          constructor
          · intro _
            exact Or.inr ⟨by omega, by omega⟩
          · intro _
            rfl
        · rw [getD_set_ne hxx]
          constructor
          · intro h
            exact Or.inl h
          · intro h
            rcases h with h | h
            · exact h
            · exfalso
              omega
      · unfold gridBlockedAt
        rw [getD_set_ne hzy]
        constructor
        · intro h
          exact Or.inl h
        · intro h
          rcases h with h | h
          · exact h
          · exfalso
            omega
  · next hguard =>
    refine ⟨hd, ?_⟩
    constructor
    · intro h
      exact Or.inl h
    · intro h
      rcases h with h | h
      · exact h
      · exfalso
        apply hguard
        refine ⟨?_, ?_, ?_, ?_⟩ <;> omega

theorem cellsFold_spec (pf : Pathfinding) {x y : Nat} (hx : x < pf.width)
    (hy : y < pf.height) :
    ∀ (cells : List (ℚ × ℚ)) (grid : List (List Bool)),
    gridDims grid pf.width pf.height →
    gridDims (cells.foldl (setBuildingCell pf) grid) pf.width pf.height ∧
    (gridBlockedAt (cells.foldl (setBuildingCell pf) grid) x y = true ↔
      gridBlockedAt grid x y = true ∨
      ∃ c ∈ cells, cround (c.1 - pf.gridOffsetX) = (x : Int) ∧
        cround (c.2 - pf.gridOffsetZ) = (y : Int)) := by
  intro cells
  induction cells with
  | nil =>
    intro grid hd
    refine ⟨hd, ?_⟩
    simp
  | cons c rest ih =>
    intro grid hd
    rw [List.foldl_cons]
    have hstep := setBuildingCell_spec pf hd hx hy c
    obtain ⟨ihd, ihiff⟩ := ih (setBuildingCell pf grid c) hstep.1
    refine ⟨ihd, ?_⟩
    rw [ihiff, hstep.2]
    constructor
    · intro h
      rcases h with (h | h) | h
      · exact Or.inl h
      · exact Or.inr ⟨c, List.mem_cons_self c rest, h⟩
      · obtain ⟨c', hc', hcc⟩ := h
        exact Or.inr ⟨c', List.mem_cons_of_mem c hc', hcc⟩
    · intro h
      rcases h with h | h
      · exact Or.inl (Or.inl h)
      · obtain ⟨c', hc', hcc⟩ := h
        rcases List.mem_cons.mp hc' with hceq | hcr
        · subst hceq
          exact Or.inl (Or.inr hcc)
        · exact Or.inr ⟨c', hcr, hcc⟩

theorem buildingsFold_spec (pf : Pathfinding) {x y : Nat} (hx : x < pf.width)
    (hy : y < pf.height) :
    ∀ (bs : BuildingCells) (grid : List (List Bool)),
    gridDims grid pf.width pf.height →
    gridDims (bs.foldl (fun g cells => cells.foldl (setBuildingCell pf) g) grid)
      pf.width pf.height ∧
    (gridBlockedAt (bs.foldl (fun g cells => cells.foldl (setBuildingCell pf) g) grid)
        x y = true ↔
      gridBlockedAt grid x y = true ∨
      ∃ cells ∈ bs, ∃ c ∈ cells, cround (c.1 - pf.gridOffsetX) = (x : Int) ∧
        cround (c.2 - pf.gridOffsetZ) = (y : Int)) := by
  intro bs
  induction bs with
  | nil =>
    intro grid hd
    refine ⟨hd, ?_⟩
    simp
  | cons cells rest ih =>
    intro grid hd
    rw [List.foldl_cons]
    have hstep := cellsFold_spec pf hx hy cells grid hd
    obtain ⟨ihd, ihiff⟩ := ih (cells.foldl (setBuildingCell pf) grid) hstep.1
    refine ⟨ihd, ?_⟩
    rw [ihiff, hstep.2]
    constructor
    · intro h
      rcases h with (h | h) | h
      · exact Or.inl h
      · exact Or.inr ⟨cells, List.mem_cons_self cells rest, h⟩
      · obtain ⟨cs, hcs, hrest⟩ := h
        exact Or.inr ⟨cs, List.mem_cons_of_mem cells hcs, hrest⟩
    · intro h
      rcases h with h | h
      · exact Or.inl (Or.inl h)
      · obtain ⟨cs, hcs, hrest⟩ := h
        rcases List.mem_cons.mp hcs with hceq | hcr
        · subst hceq
          exact Or.inl (Or.inr hrest)
        · exact Or.inr ⟨cs, hcr, hrest⟩

theorem setObstacle_parentGen (pf : Pathfinding) (x y : Int) (b : Bool) :
    (pf.setObstacle x y b).parentGen = pf.parentGen := by
  unfold setObstacle; split <;> rfl

theorem setObstacle_generationCounter (pf : Pathfinding) (x y : Int) (b : Bool) :
    (pf.setObstacle x y b).generationCounter = pf.generationCounter := by
  unfold setObstacle; split <;> rfl

theorem setObstacle_obstaclesDirty (pf : Pathfinding) (x y : Int) (b : Bool) :
    (pf.setObstacle x y b).obstaclesDirty = pf.obstaclesDirty := by
  unfold setObstacle; split <;> rfl

theorem setObstacle_width (pf : Pathfinding) (x y : Int) (b : Bool) :
    (pf.setObstacle x y b).width = pf.width := by
  unfold setObstacle; split <;> rfl

theorem setObstacle_height (pf : Pathfinding) (x y : Int) (b : Bool) :
    (pf.setObstacle x y b).height = pf.height := by
  unfold setObstacle; split <;> rfl

theorem isWalkable_setObstacle_self {pf : Pathfinding} {x y : Int}
    (hrows : pf.obstacles.length = pf.height)
    (hcols : ∀ row ∈ pf.obstacles, row.length = pf.width)
    (hr : 0 ≤ x ∧ x < (pf.width : Int) ∧ 0 ≤ y ∧ y < (pf.height : Int)) :
    (pf.setObstacle x y true).isWalkable x y = false := by
  have hrowlen : (pf.obstacles.getD y.toNat []).length = pf.width := by
    have hlt : y.toNat < pf.obstacles.length := by omega
    have hmem : pf.obstacles.getD y.toNat [] ∈ pf.obstacles := by
      rw [List.getD_eq_getElem?_getD, List.getElem?_eq_getElem hlt]
      exact List.getElem_mem hlt
    exact hcols _ hmem
  unfold setObstacle
  rw [if_pos hr]
  unfold isWalkable
  rw [if_neg (by push_neg; exact ⟨hr.1, hr.2.1, hr.2.2.1, hr.2.2.2⟩)]
  unfold blockedAt
  dsimp only
  have h1 : y.toNat < pf.obstacles.length := by omega
  have h2 : x.toNat < (pf.obstacles.getD y.toNat []).length := by omega
  rw [getD_set_self h1, getD_set_self h2]
  rfl

theorem findPath_clean (pf : Pathfinding) (t : Option TerrainSource)
    (b : BuildingCells) (s e : Point) (h : pf.obstaclesDirty = false) :
    pf.findPath t b s e = pf.findPathInternal s e := by
  unfold findPath
  rw [if_neg (by simp [h])]

theorem findPathInternal_nonempty_walkable {pf : Pathfinding} {s e : Point}
    (hne : (pf.findPathInternal s e).1 ≠ []) :
    pf.isWalkable s.x s.y = true ∧ pf.isWalkable e.x e.y = true := by
  by_contra hcon
  apply hne
  have hfe : FrameEq pf.ensureWorkingBuffers pf := frameEq_ensureWorkingBuffers pf
  have hcon2 : ¬(pf.ensureWorkingBuffers.isWalkable s.x s.y = true ∧
      pf.ensureWorkingBuffers.isWalkable e.x e.y = true) := by
    rw [isWalkable_of_frameEq hfe, isWalkable_of_frameEq hfe]
    exact hcon
  unfold findPathInternal findPathInternalStats
  dsimp only
  rw [if_pos hcon2]

theorem nextGeneration_ne_zero (pf : Pathfinding) : pf.nextGeneration.1 ≠ 0 := by
  unfold nextGeneration
  dsimp only
  by_cases h : (pf.generationCounter + 1) % uint32Mod = 0
  · rw [if_pos h]
    simp [resetGenerations, uint32Mod]
  · rw [if_neg h]
    exact h

theorem foldl_setObstacle_parentGen :
    ∀ (bl : List (Int × Int)) (pf : Pathfinding),
    (bl.foldl (fun s c => s.setObstacle c.1 c.2 true) pf).parentGen = pf.parentGen := by
  intro bl
  induction bl with
  | nil => intro pf; rfl
  | cons c rest ih =>
    intro pf
    rw [List.foldl_cons, ih, setObstacle_parentGen]

theorem foldl_setObstacle_generationCounter :
    ∀ (bl : List (Int × Int)) (pf : Pathfinding),
    (bl.foldl (fun s c => s.setObstacle c.1 c.2 true) pf).generationCounter
      = pf.generationCounter := by
  intro bl
  induction bl with
  | nil => intro pf; rfl
  | cons c rest ih =>
    intro pf
    rw [List.foldl_cons, ih, setObstacle_generationCounter]

theorem testGrid_generationCounter (w h : Nat) (bl : List (Int × Int)) :
    (testGrid w h bl).generationCounter = 0 := by
  unfold testGrid
  show (bl.foldl (fun s c => s.setObstacle c.1 c.2 true) (init w h)).generationCounter = 0
  rw [foldl_setObstacle_generationCounter]
  rfl

theorem testGrid_parentGen (w h : Nat) (bl : List (Int × Int)) :
    (testGrid w h bl).parentGen = List.replicate (w * h) 0 := by
  unfold testGrid
  show (bl.foldl (fun s c => s.setObstacle c.1 c.2 true) (init w h)).parentGen = _
  rw [foldl_setObstacle_parentGen]
  rfl

theorem setObstacle_parentVal (pf : Pathfinding) (x y : Int) (b : Bool) :
    (pf.setObstacle x y b).parentVal = pf.parentVal := by
  unfold setObstacle
  split <;> rfl

theorem foldl_setObstacle_parentVal :
    ∀ (bl : List (Int × Int)) (pf : Pathfinding),
    (bl.foldl (fun s c => s.setObstacle c.1 c.2 true) pf).parentVal = pf.parentVal := by
  intro bl
  induction bl with
  | nil => intro pf; rfl
  | cons c rest ih =>
    intro pf
    rw [List.foldl_cons, ih, setObstacle_parentVal]

theorem testGrid_parentVal (w h : Nat) (bl : List (Int × Int)) :
    (testGrid w h bl).parentVal = List.replicate (w * h) (-1) := by
  unfold testGrid
  show (bl.foldl (fun s c => s.setObstacle c.1 c.2 true) (init w h)).parentVal = _
  rw [foldl_setObstacle_parentVal]
  rfl

theorem testGrid_sized (w h : Nat) (bl : List (Int × Int)) :
    (testGrid w h bl).parentVal.length = (testGrid w h bl).parentGen.length := by
  rw [testGrid_parentVal, testGrid_parentGen, List.length_replicate,
    List.length_replicate]

theorem testGrid_counter_lt (w h : Nat) (bl : List (Int × Int)) :
    (testGrid w h bl).generationCounter < uint32Mod := by
  rw [testGrid_generationCounter]
  norm_num [uint32Mod]

theorem testGrid_parent_le (w h : Nat) (bl : List (Int × Int)) :
    ∀ k, (testGrid w h bl).parentGen.getD k 0 ≤ (testGrid w h bl).generationCounter := by
  intro k
  rw [testGrid_parentGen, testGrid_generationCounter, getD_replicate_zero]

end Pathfinding

/-! ## Claims -/

open Pathfinding

set_option maxRecDepth 40000 in
set_option maxHeartbeats 16000000 in
/-- Counterexample to C1, refuting both of its guarantees for mutually
reachable pairs. Optimal length: on a 5×6 grid with the single obstacle
(3,1), the cells (4,0) and (1,4) are reachable at breadth-first distance
5, yet `findPath` returns a 7-point path (6 moves), matching neither the
5 moves nor the 6 points of a shortest path. Non-emptiness: on a 7×8
grid with seven obstacles, the walkable cells (6,7) and (0,0) are
reachable at breadth-first distance 13, yet `findPath` returns the empty
path — the iteration budget of width·height = 56 pops, which also counts
discarded stale and already-closed heap entries, is exhausted before the
end cell is closed. -/
theorem c1_counterexample :
    (bfsDistance (testGrid 5 6 [(3, 1)]) ⟨4, 0⟩ ⟨1, 4⟩ = some 5 ∧
      ((testGrid 5 6 [(3, 1)]).findPath none [] ⟨4, 0⟩ ⟨1, 4⟩).1 =
        [⟨4, 0⟩, ⟨3, 0⟩, ⟨2, 0⟩, ⟨1, 1⟩, ⟨1, 2⟩, ⟨1, 3⟩, ⟨1, 4⟩] ∧
      ((testGrid 5 6 [(3, 1)]).findPath none [] ⟨4, 0⟩ ⟨1, 4⟩).1.length ≠ 5 ∧
      ((testGrid 5 6 [(3, 1)]).findPath none [] ⟨4, 0⟩ ⟨1, 4⟩).1.length ≠ 5 + 1) ∧
    (bfsDistance (testGrid 7 8 [(0, 2), (1, 0), (1, 2), (2, 2), (3, 1), (4, 6), (5, 4)])
        ⟨6, 7⟩ ⟨0, 0⟩ = some 13 ∧
      ((testGrid 7 8 [(0, 2), (1, 0), (1, 2), (2, 2), (3, 1), (4, 6), (5, 4)]).findPath
        none [] ⟨6, 7⟩ ⟨0, 0⟩).1 = []) := by
  exact ⟨⟨by decide, by decide, by decide, by decide⟩, by decide, by decide⟩

/-- Counterexample to C6's "regardless of the dirty flag": a freshly built
3×1 engine (dirty flag still set) has (1,0) blocked by `setObstacle`, yet
the next `findPath` — whose rebuild over an all-walkable terrain wipes the
manual edit — routes straight through the blocked cell. -/
theorem c6_counterexample :
    ((init 3 1).setObstacle 1 0 true).obstaclesDirty = true ∧
    ((init 3 1).setObstacle 1 0 true).isWalkable 1 0 = false ∧
    (((init 3 1).setObstacle 1 0 true).findPath (some ⟨3, 1, fun _ _ => true⟩) []
      ⟨0, 0⟩ ⟨2, 0⟩).1 = [⟨0, 0⟩, ⟨1, 0⟩, ⟨2, 0⟩] := by
  exact ⟨by decide, by decide, by decide⟩

/-- The 2×1 query used by C1's witness returns a non-empty path. -/
theorem c1_aux_nonempty :
    ((testGrid 2 1 []).findPath none [] ⟨0, 0⟩ ⟨1, 0⟩).1 ≠ [] := by decide

/-- In the 3×3 wall grid of C2's witness the end cell is never closed. -/
theorem c2_aux_not_closed :
    ¬(((testGrid 3 3 [(1, 0), (1, 1), (1, 2)]).findPathInternalStats
        ⟨0, 0⟩ ⟨2, 0⟩).2.1.isClosed
        ((testGrid 3 3 [(1, 0), (1, 1), (1, 2)]).toIndex ⟨2, 0⟩)
        (((testGrid 3 3 [(1, 0), (1, 1), (1, 2)]).findPathInternalStats
          ⟨0, 0⟩ ⟨2, 0⟩).2.2.2.1) = true) := by decide

/-- The detour point (1,1) lies on the path of C6's witness query. -/
theorem c6_aux_mem :
    (⟨1, 1⟩ : Point) ∈ (((testGrid 3 3 []).setObstacle 1 0 true).findPath none []
      ⟨0, 0⟩ ⟨2, 0⟩).1 := by decide

/- The elaborator's whnf has no sharing across the search's branches, so
letting it step into the concrete loop makes even tiny queries blow up at
elaboration time; every kernel computation on the loop is above, so the
loop is opaque to the elaborator from here on (the kernel and the already
established lemmas are unaffected). -/
attribute [irreducible] Pathfinding.searchLoop

/-- C1 (amended): with a clean obstacle grid and a well-formed scratch
store, every non-empty path returned by `findPath` starts at `start`, ends
at `end`, and each consecutive pair is one legal move: a unit 8-neighbor
step onto a walkable cell with no diagonal corner-cutting. Both stronger
guarantees of the original claim for reachable pairs are refuted by
`c1_counterexample`: the length need not equal the breadth-first
shortest-path length (the Manhattan heuristic overestimates diagonal
moves of the unit-cost 8-connected grid, so the search can close the end
cell through a longer route), and the result need not be non-empty (the
width·height iteration budget also counts discarded heap pops and can run
out on a reachable pair). -/
theorem c1_path_valid (pf : Pathfinding) (t : Option TerrainSource)
    (b : BuildingCells) (s e : Point) (hclean : pf.obstaclesDirty = false)
    (hc : pf.generationCounter < uint32Mod)
    (hp : ∀ k, pf.parentGen.getD k 0 ≤ pf.generationCounter)
    (hsz : pf.parentVal.length = pf.parentGen.length)
    (hne : (pf.findPath t b s e).1 ≠ []) :
    (pf.findPath t b s e).1.head? = some s ∧
    (pf.findPath t b s e).1.getLast? = some e ∧
    List.Chain' (validStep pf) (pf.findPath t b s e).1 := by
  rw [findPath_clean pf t b s e hclean] at hne ⊢
  exact findPathInternal_valid hc hp hsz hne

/-- Witness for C1: on an obstacle-free 2×1 grid the query (0,0) → (1,0)
returns a non-empty path with the stated endpoints and one legal step. -/
theorem c1_witness :
    ((testGrid 2 1 []).findPath none [] ⟨0, 0⟩ ⟨1, 0⟩).1.head? = some ⟨0, 0⟩ ∧
    ((testGrid 2 1 []).findPath none [] ⟨0, 0⟩ ⟨1, 0⟩).1.getLast? = some ⟨1, 0⟩ ∧
    List.Chain' (validStep (testGrid 2 1 []))
      ((testGrid 2 1 []).findPath none [] ⟨0, 0⟩ ⟨1, 0⟩).1 :=
  c1_path_valid (testGrid 2 1 []) none [] ⟨0, 0⟩ ⟨1, 0⟩ (by decide)
    (testGrid_counter_lt 2 1 []) (testGrid_parent_le 2 1 [])
    (testGrid_sized 2 1 []) c1_aux_nonempty

/-- C2: for every start and end, the main search loop executes at most
`width * height` iterations (every heap pop counts, including discarded
stale or closed entries), and when the end cell is not closed at the end
of the loop the search returns the empty path. -/
theorem c2_iteration_budget (pf : Pathfinding) (s e : Point) :
    (pf.findPathInternalStats s e).2.2.1 ≤ pf.width * pf.height ∧
    (pf.toIndex s ≠ pf.toIndex e →
      ¬((pf.findPathInternalStats s e).2.1.isClosed (pf.toIndex e)
          (pf.findPathInternalStats s e).2.2.2.1 = true) →
      (pf.findPathInternalStats s e).1 = []) :=
  findPathInternalStats_budget pf s e

/-- Witness for C2: a 3×3 grid split by a full wall, start and end in the
two disconnected halves; the end is never closed and the result is empty. -/
theorem c2_witness :
    ((testGrid 3 3 [(1, 0), (1, 1), (1, 2)]).toIndex ⟨0, 0⟩ ≠
      (testGrid 3 3 [(1, 0), (1, 1), (1, 2)]).toIndex ⟨2, 0⟩) ∧
    ((testGrid 3 3 [(1, 0), (1, 1), (1, 2)]).findPathInternalStats
      ⟨0, 0⟩ ⟨2, 0⟩).1 = [] := by
  refine ⟨by decide, ?_⟩
  exact (c2_iteration_budget (testGrid 3 3 [(1, 0), (1, 1), (1, 2)]) ⟨0, 0⟩ ⟨2, 0⟩).2
    (by decide) c2_aux_not_closed

/-- C3: with a clean obstacle grid and a well-formed scratch store, every
diagonal step between consecutive points of a returned path has both
flanking orthogonal cells walkable. -/
theorem c3_no_corner_cut (pf : Pathfinding) (t : Option TerrainSource)
    (b : BuildingCells) (s e : Point) (hclean : pf.obstaclesDirty = false)
    (hc : pf.generationCounter < uint32Mod)
    (hp : ∀ k, pf.parentGen.getD k 0 ≤ pf.generationCounter)
    (hsz : pf.parentVal.length = pf.parentGen.length) :
    List.Chain' (fun a b2 => (b2.x ≠ a.x ∧ b2.y ≠ a.y) →
      pf.isWalkable b2.x a.y = true ∧ pf.isWalkable a.x b2.y = true)
      (pf.findPath t b s e).1 := by
  by_cases hne : (pf.findPath t b s e).1 = []
  · rw [hne]
    exact List.chain'_nil
  · rw [findPath_clean pf t b s e hclean] at hne ⊢
    have hv := findPathInternal_valid hc hp hsz hne
    exact hv.2.2.imp fun a b2 hab => hab.2.2.2.2

set_option maxHeartbeats 1000000 in
/-- Witness for C3: on an obstacle-free 2×2 grid the diagonal query
(0,0) → (1,1) is answered by a path whose diagonal step has both flanking
cells walkable. -/
theorem c3_witness :
    List.Chain' (fun a b2 => (b2.x ≠ a.x ∧ b2.y ≠ a.y) →
      (testGrid 2 2 []).isWalkable b2.x a.y = true ∧
      (testGrid 2 2 []).isWalkable a.x b2.y = true)
      ((testGrid 2 2 []).findPath none [] ⟨0, 0⟩ ⟨1, 1⟩).1 :=
  c3_no_corner_cut (testGrid 2 2 []) none [] ⟨0, 0⟩ ⟨1, 1⟩ (by decide)
    (testGrid_counter_lt 2 2 []) (testGrid_parent_le 2 2 [])
    (testGrid_sized 2 2 [])

/-- C4: when the dirty flag is set, the rebuild performed by
`updateBuildingObstacles` blocks an in-range cell exactly when the terrain
source reports it unwalkable or it lies outside the terrain source's
bounds, or some registered building footprint cell, rounded after the grid
offset is subtracted, maps onto it (cells mapping outside the grid are
ignored by `setBuildingCell`); and the dirty flag is clear afterwards. -/
theorem c4_rebuild_blocked_iff (pf : Pathfinding) (t : TerrainSource)
    (bs : BuildingCells) (x y : Nat) (hx : x < pf.width) (hy : y < pf.height)
    (hdirty : pf.obstaclesDirty = true) :
    (gridBlockedAt (pf.updateBuildingObstacles (some t) bs).obstacles x y = true ↔
      (¬((x : Int) < t.width ∧ (y : Int) < t.height) ∨ t.walkable x y = false) ∨
      ∃ cells ∈ bs, ∃ c ∈ cells, cround (c.1 - pf.gridOffsetX) = (x : Int) ∧
        cround (c.2 - pf.gridOffsetZ) = (y : Int)) ∧
    (pf.updateBuildingObstacles (some t) bs).obstaclesDirty = false := by
  unfold updateBuildingObstacles
  rw [if_neg (not_not_intro hdirty)]
  dsimp only
  refine ⟨?_, rfl⟩
  have hfold := buildingsFold_spec pf hx hy bs (terrainPass pf t)
    (gridDims_terrainPass pf t)
  rw [hfold.2, gridBlockedAt_terrainPass pf t hx hy]
  constructor
  · intro h
    rcases h with h | h
    · by_cases hb : (x : Int) < t.width ∧ (y : Int) < t.height
      · rw [if_pos hb] at h
        refine Or.inl (Or.inr ?_)
        rcases Bool.eq_false_or_eq_true (t.walkable x y) with hw | hw
        · rw [hw] at h
          exact absurd h (by simp)
        · exact hw
      · exact Or.inl (Or.inl hb)
    · exact Or.inr h
  · intro h
    rcases h with (h | h) | h
    · rw [if_neg h]
      exact Or.inl rfl
    · by_cases hb : (x : Int) < t.width ∧ (y : Int) < t.height
      · rw [if_pos hb, h]
        exact Or.inl rfl
      · rw [if_neg hb]
        exact Or.inl rfl
    · exact Or.inr h

/-- Witness for C4: a dirty 3×3 engine rebuilt over a 2×2 all-walkable
terrain with one building cell at world (1,1): the terrain-covered cell
(1,1) is blocked exactly through the building overlay, and the flag is
clear. -/
theorem c4_witness :
    gridBlockedAt ((init 3 3).updateBuildingObstacles
        (some ⟨2, 2, fun _ _ => true⟩) [[((1 : ℚ), (1 : ℚ))]]).obstacles 1 1 = true ∧
    ((init 3 3).updateBuildingObstacles (some ⟨2, 2, fun _ _ => true⟩)
      [[((1 : ℚ), (1 : ℚ))]]).obstaclesDirty = false := by
  have h := c4_rebuild_blocked_iff (init 3 3) ⟨2, 2, fun _ _ => true⟩
    [[((1 : ℚ), (1 : ℚ))]] 1 1 (by decide) (by decide) rfl
  refine ⟨h.1.mpr (Or.inr ⟨[((1 : ℚ), (1 : ℚ))], by decide,
    ((1 : ℚ), (1 : ℚ)), by decide, ?_, ?_⟩), h.2⟩
  · show cround ((1 : ℚ) - (0 : ℚ)) = ((1 : Nat) : Int)
    unfold cround
    norm_num
  · show cround ((1 : ℚ) - (0 : ℚ)) = ((1 : Nat) : Int)
    unfold cround
    norm_num

/-- C5: from any reachable counter state (counter below 2^32 and no stale
stamp above it), `nextGeneration` returns a non-zero generation `g` whose
scratch reads all yield the sentinels — `getGCost` is `INT_MAX`,
`hasParent` is false, `getParent` is −1, `isClosed` is false — until a
matching `set` call; and it performs the full clear-and-restart exactly
when the incremented counter wraps to zero. -/
theorem c5_generation_freshness (pf : Pathfinding)
    (hc : pf.generationCounter < uint32Mod)
    (hp1 : ∀ k, pf.closedGen.getD k 0 ≤ pf.generationCounter)
    (hp2 : ∀ k, pf.gCostGen.getD k 0 ≤ pf.generationCounter)
    (hp3 : ∀ k, pf.parentGen.getD k 0 ≤ pf.generationCounter) :
    pf.nextGeneration.1 ≠ 0 ∧
    (∀ i : Int, pf.nextGeneration.2.getGCost i pf.nextGeneration.1 = intMax) ∧
    (∀ i : Int, pf.nextGeneration.2.hasParent i pf.nextGeneration.1 = false) ∧
    (∀ i : Int, pf.nextGeneration.2.getParent i pf.nextGeneration.1 = -1) ∧
    (∀ i : Int, pf.nextGeneration.2.isClosed i pf.nextGeneration.1 = false) ∧
    ((pf.generationCounter + 1) % uint32Mod = 0 →
      pf.nextGeneration = (1, { resetGenerations pf with generationCounter := 1 })) ∧
    ((pf.generationCounter + 1) % uint32Mod ≠ 0 →
      pf.nextGeneration = ((pf.generationCounter + 1) % uint32Mod,
        { pf with generationCounter := (pf.generationCounter + 1) % uint32Mod })) := by
  refine ⟨nextGeneration_ne_zero pf, fun i => nextGeneration_getGCost_sentinel hc hp2 i,
    fun i => nextGeneration_hasParent_false hc hp3 i,
    fun i => nextGeneration_getParent_none hc hp3 i,
    fun i => nextGeneration_isClosed_false hc hp1 i, ?_, ?_⟩
  · intro h
    unfold nextGeneration
    dsimp only
    rw [if_pos h]
    have h1 : ((resetGenerations pf).generationCounter + 1) % uint32Mod = 1 := by
      simp [resetGenerations, uint32Mod]
    rw [h1]
  · intro h
    unfold nextGeneration
    dsimp only
    rw [if_neg h]

/-- Witness for C5: an engine one increment away from the 32-bit wrap:
`nextGeneration` performs the full clear and restarts the counter at 1,
and every `getGCost` read at the new generation yields `INT_MAX`. -/
theorem c5_witness :
    ({ init 2 2 with generationCounter := uint32Mod - 1 } : Pathfinding).nextGeneration =
      (1, { resetGenerations { init 2 2 with generationCounter := uint32Mod - 1 } with
        generationCounter := 1 }) ∧
    ∀ i : Int,
      ({ init 2 2 with
        generationCounter := uint32Mod - 1 } : Pathfinding).nextGeneration.2.getGCost i
        ({ init 2 2 with
          generationCounter := uint32Mod - 1 } : Pathfinding).nextGeneration.1 = intMax := by
  have h := c5_generation_freshness { init 2 2 with generationCounter := uint32Mod - 1 }
    (by decide)
    (fun k => by
      show (List.replicate (2 * 2) 0).getD k 0 ≤ uint32Mod - 1
      rw [getD_replicate_zero]
      exact Nat.zero_le _)
    (fun k => by
      show (List.replicate (2 * 2) 0).getD k 0 ≤ uint32Mod - 1
      rw [getD_replicate_zero]
      exact Nat.zero_le _)
    (fun k => by
      show (List.replicate (2 * 2) 0).getD k 0 ≤ uint32Mod - 1
      rw [getD_replicate_zero]
      exact Nat.zero_le _)
  exact ⟨h.2.2.2.2.2.1 (by decide), h.2.1⟩

/-- C6 (amended): when the obstacle grid is clean at the time of the next
`findPath` call, a preceding in-range `setObstacle(x, y, true)` is
respected: no point of the returned path is the blocked cell. The original
claim's "regardless of the state of the dirty flag" is refuted by
`c6_counterexample`: a dirty flag makes `findPath` rebuild the grid from
the terrain and building sources, wiping the manual edit. -/
theorem c6_respects_setObstacle (pf : Pathfinding) (t : Option TerrainSource)
    (b : BuildingCells) (x y : Int) (s e : Point)
    (hclean : pf.obstaclesDirty = false)
    (hr : 0 ≤ x ∧ x < (pf.width : Int) ∧ 0 ≤ y ∧ y < (pf.height : Int))
    (hrows : pf.obstacles.length = pf.height)
    (hcols : ∀ row ∈ pf.obstacles, row.length = pf.width)
    (hc : pf.generationCounter < uint32Mod)
    (hp : ∀ k, pf.parentGen.getD k 0 ≤ pf.generationCounter)
    (hsz : pf.parentVal.length = pf.parentGen.length) :
    ∀ p ∈ ((pf.setObstacle x y true).findPath t b s e).1, p ≠ (⟨x, y⟩ : Point) := by
  intro p hmem hpeq
  set pf2 := pf.setObstacle x y true with hpf2
  have hclean2 : pf2.obstaclesDirty = false := by
    rw [hpf2, setObstacle_obstaclesDirty]
    exact hclean
  have hc2 : pf2.generationCounter < uint32Mod := by
    rw [hpf2, setObstacle_generationCounter]
    exact hc
  have hpar2 : ∀ k, pf2.parentGen.getD k 0 ≤ pf2.generationCounter := by
    rw [hpf2, setObstacle_parentGen, setObstacle_generationCounter]
    exact hp
  have hsz2 : pf2.parentVal.length = pf2.parentGen.length := by
    rw [hpf2, setObstacle_parentVal, setObstacle_parentGen]
    exact hsz
  rw [findPath_clean pf2 t b s e hclean2] at hmem
  have hne : (pf2.findPathInternal s e).1 ≠ [] := by
    intro hz
    rw [hz] at hmem
    exact absurd hmem (List.not_mem_nil p)
  have hv := findPathInternal_valid hc2 hpar2 hsz2 hne
  have hsw := (findPathInternal_nonempty_walkable hne).1
  have hwalk : pf2.isWalkable p.x p.y = true := by
    refine chain_validStep_walkable (pf2.findPathInternal s e).1 hv.2.2 ?_ p hmem
    intro a ha
    rw [hv.1, Option.some.injEq] at ha
    rw [← ha]
    exact hsw
  have hblocked : pf2.isWalkable x y = false :=
    isWalkable_setObstacle_self hrows hcols ⟨hr.1, hr.2.1, hr.2.2.1, hr.2.2.2⟩
  rw [hpeq] at hwalk
  dsimp only at hwalk
  rw [hwalk] at hblocked
  exact absurd hblocked (by simp)

/-- Witness for C6: a clean 3×3 grid with (1,0) blocked by `setObstacle`:
the returned path for (0,0) → (2,0) passes (1,1), and the amended theorem
shows that point, a member of the path, differs from the blocked cell. -/
theorem c6_witness :
    (⟨1, 1⟩ : Point) ∈ (((testGrid 3 3 []).setObstacle 1 0 true).findPath none []
      ⟨0, 0⟩ ⟨2, 0⟩).1 ∧ (⟨1, 1⟩ : Point) ≠ (⟨1, 0⟩ : Point) := by
  refine ⟨c6_aux_mem, ?_⟩
  exact c6_respects_setObstacle (testGrid 3 3 []) none [] 1 0 ⟨0, 0⟩ ⟨2, 0⟩
    (by decide) (by decide) (by decide) (by decide) (testGrid_counter_lt 3 3 [])
    (testGrid_parent_le 3 3 []) (testGrid_sized 3 3 []) ⟨1, 1⟩ c6_aux_mem

/-- C7: out-of-range coordinates are never walkable, and an unwalkable or
out-of-bounds endpoint short-circuits the search to the empty path (also
through the `findPath` facade when the grid is clean). -/
theorem c7_invalid_endpoints_empty (pf : Pathfinding) (t : Option TerrainSource)
    (b : BuildingCells) (s e : Point) :
    (∀ x y : Int, (x < 0 ∨ (pf.width : Int) ≤ x ∨ y < 0 ∨ (pf.height : Int) ≤ y) →
      pf.isWalkable x y = false) ∧
    ((pf.isWalkable s.x s.y = false ∨ pf.isWalkable e.x e.y = false) →
      (pf.findPathInternal s e).1 = []) ∧
    (pf.obstaclesDirty = false →
      (pf.isWalkable s.x s.y = false ∨ pf.isWalkable e.x e.y = false) →
      (pf.findPath t b s e).1 = []) := by
  have hmain : (pf.isWalkable s.x s.y = false ∨ pf.isWalkable e.x e.y = false) →
      (pf.findPathInternal s e).1 = [] := by
    intro hdisj
    have hcond : ¬(pf.isWalkable s.x s.y = true ∧ pf.isWalkable e.x e.y = true) := by
      intro hcon
      rcases hdisj with h | h
      · rw [hcon.1] at h
        simp at h
      · rw [hcon.2] at h
        simp at h
    have hfe : FrameEq pf.ensureWorkingBuffers pf := frameEq_ensureWorkingBuffers pf
    have hcond2 : ¬(pf.ensureWorkingBuffers.isWalkable s.x s.y = true ∧
        pf.ensureWorkingBuffers.isWalkable e.x e.y = true) := by
      rw [isWalkable_of_frameEq hfe, isWalkable_of_frameEq hfe]
      exact hcond
    unfold findPathInternal findPathInternalStats
    dsimp only
    rw [if_pos hcond2]
  refine ⟨?_, hmain, ?_⟩
  · intro x y hout
    unfold isWalkable
    have hcond : x < 0 ∨ x ≥ (pf.width : Int) ∨ y < 0 ∨ y ≥ (pf.height : Int) := by
      rcases hout with h | h | h | h
      · exact Or.inl h
      · exact Or.inr (Or.inl h)
      · exact Or.inr (Or.inr (Or.inl h))
      · exact Or.inr (Or.inr (Or.inr h))
    rw [if_pos hcond]
  · intro hclean hdisj
    rw [findPath_clean pf t b s e hclean]
    exact hmain hdisj

/-- Witness for C7: on a 2×2 grid with cell (1,1) blocked, a far
out-of-range coordinate is unwalkable and a query ending on the blocked
cell returns the empty path. -/
theorem c7_witness :
    (testGrid 2 2 [(1, 1)]).isWalkable 5 0 = false ∧
    ((testGrid 2 2 [(1, 1)]).findPath none [] ⟨0, 0⟩ ⟨1, 1⟩).1 = [] := by
  have h := c7_invalid_endpoints_empty (testGrid 2 2 [(1, 1)]) none [] ⟨0, 0⟩ ⟨1, 1⟩
  exact ⟨h.1 5 0 (by decide), h.2.2 (by decide) (Or.inr (by decide))⟩

/-- C8: when the obstacle grid is clean, `findPath(p, p)` on a walkable
point `p` returns exactly the single-point path `[p]`. -/
theorem c8_same_cell (pf : Pathfinding) (t : Option TerrainSource)
    (b : BuildingCells) (p : Point) (hclean : pf.obstaclesDirty = false)
    (hw : pf.isWalkable p.x p.y = true) :
    (pf.findPath t b p p).1 = [p] := by
  rw [findPath_clean pf t b p p hclean]
  have hfe := frameEq_ensureWorkingBuffers pf
  have hwE : pf.ensureWorkingBuffers.isWalkable p.x p.y = true := by
    rw [isWalkable_of_frameEq hfe]
    exact hw
  unfold findPathInternal findPathInternalStats
  dsimp only
  rw [if_neg (not_not_intro ⟨hwE, hwE⟩), if_pos rfl]

/-- Witness for C8: the single cell of a 1×1 grid pathfinds to itself. -/
theorem c8_witness : ((testGrid 1 1 []).findPath none [] ⟨0, 0⟩ ⟨0, 0⟩).1 = [⟨0, 0⟩] :=
  c8_same_cell (testGrid 1 1 []) none [] ⟨0, 0⟩ (by decide) (by decide)

/-- C9: `fetchCompletedPaths` returns the entire result queue in order,
leaves it empty, and on an empty queue returns the empty list changing
nothing. -/
theorem c9_fetch_drains (pf : Pathfinding) :
    pf.fetchCompletedPaths.1 = pf.resultQueue ∧
    pf.fetchCompletedPaths.2 = { pf with resultQueue := [] } ∧
    (pf.resultQueue = [] → pf.fetchCompletedPaths = ([], pf)) := by
  have h : fetchLoop [] pf.resultQueue = (pf.resultQueue, []) := by
    rw [fetchLoop_spec pf.resultQueue [], List.nil_append]
  refine ⟨?_, ?_, ?_⟩
  · show (fetchLoop [] pf.resultQueue).1 = pf.resultQueue
    rw [h]
  · show ({ pf with resultQueue := (fetchLoop [] pf.resultQueue).2 } : Pathfinding) =
      { pf with resultQueue := [] }
    rw [h]
  · intro hq
    show ((fetchLoop [] pf.resultQueue).1,
      ({ pf with resultQueue := (fetchLoop [] pf.resultQueue).2 } : Pathfinding)) = ([], pf)
    rw [h, hq]
    rw [show ({ pf with resultQueue := ([] : List PathResult) } : Pathfinding) = pf from by
      rw [← hq]]

/-- Witness for C9: a two-entry result queue is drained in order. -/
theorem c9_witness :
    ({ init 1 1 with resultQueue := [⟨5, [⟨0, 0⟩]⟩, ⟨6, []⟩] } : Pathfinding
      ).fetchCompletedPaths.1 = [⟨5, [⟨0, 0⟩]⟩, ⟨6, []⟩] ∧
    ({ init 1 1 with resultQueue := [⟨5, [⟨0, 0⟩]⟩, ⟨6, []⟩] } : Pathfinding
      ).fetchCompletedPaths.2.resultQueue = [] := by
  have h := c9_fetch_drains { init 1 1 with resultQueue := [⟨5, [⟨0, 0⟩]⟩, ⟨6, []⟩] }
  refine ⟨h.1, ?_⟩
  rw [h.2.1]

/-- C10: when the dirty flag is clear, `findPath` leaves every
non-scratch field unchanged: the grid dimensions, the obstacle grid, the
offsets, the dirty flag and both pipeline queues of the returned state
equal the originals. -/
theorem c10_clean_frame (pf : Pathfinding) (t : Option TerrainSource)
    (b : BuildingCells) (s e : Point) (hclean : pf.obstaclesDirty = false) :
    FrameEq (pf.findPath t b s e).2 pf := by
  rw [findPath_clean pf t b s e hclean]
  exact findPathInternal_frameEq pf s e

/-- Witness for C10: a concrete clean query preserves the frame fields. -/
theorem c10_witness :
    FrameEq ((testGrid 2 1 []).findPath none [] ⟨0, 0⟩ ⟨1, 0⟩).2 (testGrid 2 1 []) :=
  c10_clean_frame (testGrid 2 1 []) none [] ⟨0, 0⟩ ⟨1, 0⟩ (by decide)

end StdIron
